import Mathlib

/-!
Verification of the libqb hashtable map implementation (lib/hashtable.c).

The C code is shallowly embedded: chains (intrusive qb_list) become Lean
lists, pointers become positions, machine integers become Nat with explicit
reduction modulo 2^32 / 2^64 where the C type wraps, and the notifier
callbacks become recorded invocation events.  Each operation of the file is
translated function by function from the source.
-/

set_option maxHeartbeats 1600000

namespace LibqbMap

/-- Keys are byte strings (the C code reads the zero-terminated key bytes). -/
abbrev Key := List Nat

/-- Modelled from the spec: the event bit flags QB_MAP_NOTIFY_* are declared
in the facade header qbmap.h, which is not part of the sources here; the
spec fixes INSERTED=1, DELETED=2, REPLACED=4, FREE=8. -/
def QB_MAP_NOTIFY_INSERTED : Nat := 1

/-- Modelled from the spec: see QB_MAP_NOTIFY_INSERTED. -/
def QB_MAP_NOTIFY_DELETED : Nat := 2

/-- Modelled from the spec: see QB_MAP_NOTIFY_INSERTED. -/
def QB_MAP_NOTIFY_REPLACED : Nat := 4

/-- Modelled from the spec: see QB_MAP_NOTIFY_INSERTED. -/
def QB_MAP_NOTIFY_FREE : Nat := 8

/-- POSIX errno value ENOENT. -/
def ENOENT : Nat := 2

/-- POSIX errno value ENOMEM. -/
def ENOMEM : Nat := 12

/-- POSIX errno value EEXIST. -/
def EEXIST : Nat := 17

/-- Modulus of the C type uint32_t. -/
def U32 : Nat := 2 ^ 32

/-- Modulus of the C type size_t (64-bit). -/
def U64 : Nat := 2 ^ 64

/-- Wrapping decrement of a uint32_t value: the refcount-- of the C code.
For x < 2^32 (every uint32_t value) this equals (x + 2^32 - 1) % 2^32. -/
def u32_dec (x : Nat) : Nat := if x = 0 then U32 - 1 else x - 1

/-- Wrapping decrement of a size_t value: the count-- of the C code.
For x < 2^64 (every size_t value) this equals (x + 2^64 - 1) % 2^64. -/
def u64_dec (x : Nat) : Nat := if x = 0 then U64 - 1 else x - 1

/-- FNV_32_PRIME from hashtable.c. -/
def FNV_32_PRIME : Nat := 0x01000193

/-- hash_fnv: FNV-1a over the key bytes (uint32 arithmetic), folded by
((h >> order) ^ h) & ((1 << order) - 1). -/
def hash_fnv (value : Key) (order : Nat) : Nat :=
  let h := value.foldl (fun h b => ((h ^^^ b) * FNV_32_PRIME) % U32) 0x811c9dc5
  ((h >>> order) ^^^ h) % 2 ^ order

/-- qb_hash_string: hash_fnv over the whole byte string (strlen is the list
length in this embedding). -/
def qb_hash_string (key : Key) (order : Nat) : Nat := hash_fnv key order

/-- Modelled from the spec: struct qb_map_notifier is declared in map_int.h
(not among the sources); per the spec a registration is the triple
(events, callback, user_data).  Callbacks and user_data pointers are
modelled by identity numbers. -/
structure Notifier where
  events : Nat
  callback : Nat
  user_data : Nat
deriving DecidableEq

/-- struct hash_node: a chain entry.  The intrusive list link is implicit in
the position inside the chain list. -/
structure Node where
  key : Key
  value : Nat
  refcount : Nat
  notifier_head : List Notifier
deriving DecidableEq

/-- struct hash_table.  Buckets are the list of chains; hash_buckets_len is
the list length. -/
structure HashTable where
  count : Nat
  order : Nat
  notifier_head : List Notifier
  buckets : List (List Node)
deriving DecidableEq

/-- One callback invocation (events_fired, key, old_value, new_value) as
delivered to a registered notifier; NULL pointers are none. -/
structure Invocation where
  events : Nat
  key : Key
  old_value : Option Nat
  new_value : Option Nat
  callback : Nat
  user_data : Nat
deriving DecidableEq

/-- The counting loop of qb_hashtable_create: for (i = 0; n; i++) n >>= 1.
The first argument is fuel; n halvings always finish within n steps. -/
def bitsAux : Nat → Nat → Nat
  | 0, _ => 0
  | fuel + 1, n => if n = 0 then 0 else bitsAux fuel (n / 2) + 1

/-- Number of binary digits of n (the i computed by the create loop). -/
def bits (n : Nat) : Nat := bitsAux n n

/-- qb_hashtable_create: order = QB_MAX(i, 3) where i is the bit count of
max_size, and 1 << order empty buckets. -/
def qb_hashtable_create (max_size : Nat) : HashTable :=
  let order := max (bits max_size) 3
  { count := 0, order := order, notifier_head := [],
    buckets := List.replicate (2 ^ order) [] }

/-- The chain of bucket h (out-of-range h gives the empty chain). -/
def bucketOf (t : HashTable) (h : Nat) : List Node := t.buckets.getD h []

/-- hashtable_lookup: scan the bucket of the key for a strcmp match. -/
def hashtable_lookup (t : HashTable) (key : Key) : Option Node :=
  (bucketOf t (qb_hash_string key t.order)).find? (fun n => n.key == key)

/-- hashtable_lookup_value: as hashtable_lookup but returning the value. -/
def hashtable_lookup_value (t : HashTable) (key : Key) : Option Nat :=
  ((bucketOf t (qb_hash_string key t.order)).find? (fun n => n.key == key)).map
    (fun n => n.value)

/-- hashtable_get. -/
def hashtable_get (t : HashTable) (key : Key) : Option Nat :=
  hashtable_lookup_value t key

/-- add_notify_event: heap copy of the notifier with its events field set to
the current event. -/
def add_notify_event (event : Nat) (tn : Notifier) : Notifier :=
  { tn with events := event }

/-- The copies one per-entry notifier contributes to a snapshot. -/
def entryCopies (event : Nat) (tn : Notifier) : List Notifier :=
  if tn.events &&& event != 0 then [add_notify_event event tn] else []

/-- The copies one table-wide notifier contributes to a snapshot: a copy
tagged with the event when the masks intersect, plus a FREE-tagged copy for
DELETED/REPLACED events when the notifier registered FREE. -/
def tableCopies (event : Nat) (tn : Notifier) : List Notifier :=
  (if tn.events &&& event != 0 then [add_notify_event event tn] else []) ++
  (if (event &&& QB_MAP_NOTIFY_DELETED != 0 || event &&& QB_MAP_NOTIFY_REPLACED != 0)
      && tn.events &&& QB_MAP_NOTIFY_FREE != 0
   then [add_notify_event QB_MAP_NOTIFY_FREE tn] else [])

/-- copy_notify_list: walk the entry list then the table list, appending the
owned copies in order. -/
def copy_notify_list (t_notifiers : List Notifier) (n_notifiers : List Notifier)
    (event : Nat) : List Notifier :=
  n_notifiers.flatMap (entryCopies event) ++ t_notifiers.flatMap (tableCopies event)

/-- hashtable_notify: invoke every snapshot copy in order; the result is the
list of callback invocations. -/
def hashtable_notify (head : List Notifier) (key : Key) (old_value : Option Nat)
    (value : Option Nat) : List Invocation :=
  head.map (fun tn =>
    { events := tn.events, key := key, old_value := old_value, new_value := value,
      callback := tn.callback, user_data := tn.user_data })

/-- hashtable_node_destroy: snapshot DELETED notifiers (entry list then
table list) and invoke them with (key, value, NULL).  Unlinking is done by
the caller in this embedding. -/
def hashtable_node_destroy (t_notifiers : List Notifier) (n : Node) : List Invocation :=
  hashtable_notify (copy_notify_list t_notifiers n.notifier_head QB_MAP_NOTIFY_DELETED)
    n.key (some n.value) none

/-- hashtable_node_deref: refcount-- (uint32); destroy when it reaches 0. -/
def hashtable_node_deref (t_notifiers : List Notifier) (n : Node) :
    Option Node × List Invocation :=
  let rc := u32_dec n.refcount
  if 0 < rc then (some { n with refcount := rc }, [])
  else (none, hashtable_node_destroy t_notifiers n)

/-- The chain walk of hashtable_rm_with_hash: deref the first strcmp match
(dropping it from the chain when the deref destroyed it). -/
def rmFromChain (t_notifiers : List Notifier) (key : Key) :
    List Node → Option (List Node × List Invocation)
  | [] => none
  | n :: rest =>
    if n.key = key then
      match hashtable_node_deref t_notifiers n with
      | (some n', evs) => some (n' :: rest, evs)
      | (none, evs) => some (rest, evs)
    else
      (rmFromChain t_notifiers key rest).map (fun p => (n :: p.1, p.2))

structure RmResult where
  table : HashTable
  removed : Bool
  events : List Invocation
deriving DecidableEq

/-- hashtable_rm_with_hash: on a match, deref the node and decrement the
table count (size_t, so modulo 2^64); QB_FALSE on a miss. -/
def hashtable_rm_with_hash (t : HashTable) (key : Key) (hash_entry : Nat) : RmResult :=
  match rmFromChain t.notifier_head key (bucketOf t hash_entry) with
  | some (chain', evs) =>
    { table := { t with
                  buckets := t.buckets.set hash_entry chain'
                  count := u64_dec t.count },
      removed := true, events := evs }
  | none => { table := t, removed := false, events := [] }

/-- hashtable_rm. -/
def hashtable_rm (t : HashTable) (key : Key) : RmResult :=
  hashtable_rm_with_hash t key (qb_hash_string key t.order)

/-- The chain walk of hashtable_put: overwrite key and value of the first
strcmp match in place (returning the old node as well). -/
def replaceInChain (key : Key) (value : Nat) :
    List Node → Option (List Node × Node)
  | [] => none
  | n :: rest =>
    if n.key = key then some ({ n with key := key, value := value } :: rest, n)
    else (replaceInChain key value rest).map (fun p => (n :: p.1, p.2))

structure PutResult where
  table : HashTable
  events : List Invocation
  errno : Option Nat
deriving DecidableEq

/-- hashtable_put.  allocOk is the calloc oracle for the new-entry branch:
when it is false the operation is abandoned with errno = ENOMEM.  A new
entry gets refcount 1 and is appended at the chain tail; a match is
overwritten in place and REPLACED is notified with (old_key, old_value,
new_value). -/
def hashtable_put (t : HashTable) (key : Key) (value : Nat) (allocOk : Bool) : PutResult :=
  let h := qb_hash_string key t.order
  let chain := bucketOf t h
  match replaceInChain key value chain with
  | some (chain', old) =>
    { table := { t with buckets := t.buckets.set h chain' },
      events := hashtable_notify
        (copy_notify_list t.notifier_head old.notifier_head QB_MAP_NOTIFY_REPLACED)
        old.key (some old.value) (some value),
      errno := none }
  | none =>
    if allocOk then
      let n : Node := { key := key, value := value, refcount := 1, notifier_head := [] }
      { table := { t with
                    count := (t.count + 1) % U64
                    buckets := t.buckets.set h (chain ++ [n]) },
        events := hashtable_notify
          (copy_notify_list t.notifier_head n.notifier_head QB_MAP_NOTIFY_INSERTED)
          key none (some value),
        errno := none }
    else
      { table := t, events := [], errno := some ENOMEM }

/-- hashtable_count_get. -/
def hashtable_count_get (t : HashTable) : Nat := t.count

/-- The duplicate scan of hashtable_notify_add: a FREE-registering request
is refused when some notifier already carries the identical events mask, and
any request is refused when the (events, user_data, callback) triple is
already present. -/
def notify_dup_scan (head : List Notifier) (fn : Nat) (events : Nat)
    (user_data : Nat) : Bool :=
  head.any (fun f =>
    (events &&& QB_MAP_NOTIFY_FREE != 0 && f.events == events) ||
    (f.events == events && f.user_data == user_data && f.callback == fn))

/-- hashtable_notify_add restricted to one notifier list: -EEXIST on a
duplicate, otherwise insert at the tail for FREE registrations and at the
head for the others. -/
def hashtable_notify_add_list (head : List Notifier) (fn : Nat) (events : Nat)
    (user_data : Nat) : Int × List Notifier :=
  if notify_dup_scan head fn events user_data then (-(EEXIST : Int), head)
  else
    let f : Notifier := { events := events, callback := fn, user_data := user_data }
    if events &&& QB_MAP_NOTIFY_FREE != 0 then (0, head ++ [f]) else (0, f :: head)

/-- Write back the mutated per-entry notifier list of the first node with
the given key (the C code mutates the node through the looked-up pointer). -/
def setEntryNotifiers (key : Key) (newList : List Notifier) : List Node → List Node
  | [] => []
  | n :: rest =>
    if n.key = key then { n with notifier_head := newList } :: rest
    else n :: setEntryNotifiers key newList rest

/-- hashtable_notify_add: key = none registers on the table-wide list; a key
registers on the entry list of that key (-ENOENT when absent). -/
def hashtable_notify_add (t : HashTable) (key : Option Key) (fn : Nat) (events : Nat)
    (user_data : Nat) : Int × HashTable :=
  match key with
  | none =>
    let r := hashtable_notify_add_list t.notifier_head fn events user_data
    (r.1, { t with notifier_head := r.2 })
  | some k =>
    match hashtable_lookup t k with
    | none => (-(ENOENT : Int), t)
    | some n =>
      let r := hashtable_notify_add_list n.notifier_head fn events user_data
      if r.1 = 0 then
        let h := qb_hash_string k t.order
        (0, { t with buckets := t.buckets.set h (setEntryNotifiers k r.2 (bucketOf t h)) })
      else (r.1, t)

/-- struct hashtable_iter: the pinned node is identified by its index in the
chain of bucket .bucket (the C code stores the node pointer). -/
structure HashtableIter where
  node : Option Nat
  bucket : Nat
deriving DecidableEq

/-- hashtable_iter_create: the prefix argument is ignored. -/
def hashtable_iter_create (_t : HashTable) (_pfx : Option Key) : HashtableIter :=
  { node := none, bucket := 0 }

/-- The qb_list_for_each_entry_from walk of one bucket: first entry with
refcount > 0, with its index. -/
def scanChainAux : List Node → Nat → Option (Nat × Node)
  | [], _ => none
  | n :: rest, i => if 0 < n.refcount then some (i, n) else scanChainAux rest (i + 1)

/-- Scan one chain from a resume index. -/
def scanChainFrom (chain : List Node) (start : Nat) : Option (Nat × Node) :=
  scanChainAux (chain.drop start) start

/-- The bucket loop of hashtable_iter_next: scan buckets in ascending order,
the first one starting at the resume position and the remaining from their
heads.  The first argument is the suffix of the bucket array from bucket b. -/
def scanFrom : List (List Node) → Nat → Nat → Option (Nat × Nat × Node)
  | [], _, _ => none
  | chain :: rest, b, start =>
    match scanChainFrom chain start with
    | some (j, n) => some (b, j, n)
    | none => scanFrom rest (b + 1) 0

/-- Increment (uint32) the refcount of the node at position (b, j): the pin
taken by hashtable_iter_next. -/
def pinAt (t : HashTable) (b j : Nat) : HashTable :=
  let chain := bucketOf t b
  match chain[j]? with
  | some n =>
    { t with
        buckets := t.buckets.set b
          (chain.set j { n with refcount := (n.refcount + 1) % U32 }) }
  | none => t

structure DerefResult where
  table : HashTable
  events : List Invocation
  destroyed : Bool
deriving DecidableEq

/-- Deref the node at position (b, i), unlinking it when destroyed. -/
def derefAt (t : HashTable) (b i : Nat) : DerefResult :=
  let chain := bucketOf t b
  match chain[i]? with
  | none => { table := t, events := [], destroyed := false }
  | some n =>
    match hashtable_node_deref t.notifier_head n with
    | (some n', evs) =>
      { table := { t with buckets := t.buckets.set b (chain.set i n') },
        events := evs, destroyed := false }
    | (none, evs) =>
      { table := { t with buckets := t.buckets.set b (chain.eraseIdx i) },
        events := evs, destroyed := true }

structure IterNextResult where
  table : HashTable
  iter : HashtableIter
  events : List Invocation
  result : Option (Key × Nat)
deriving DecidableEq

/-- The resume position: one past the pinned node, or the chain head. -/
def iterStart (hi : HashtableIter) : Nat :=
  match hi.node with
  | some i => i + 1
  | none => 0

/-- hashtable_iter_next: scan for the next live entry, pin it, then deref
the previously pinned node (which the C code reaches through its stored
pointer; when that deref destroys the old node in the same bucket before the
new pin, the recorded index shifts down by one).  On a miss the cursor
fields are left untouched, so the old node is deref'd again by a further
call. -/
def hashtable_iter_next (t : HashTable) (hi : HashtableIter) : IterNextResult :=
  match scanFrom (t.buckets.drop hi.bucket) hi.bucket (iterStart hi) with
  | none =>
    match hi.node with
    | some oi =>
      let d := derefAt t hi.bucket oi
      { table := d.table, iter := hi, events := d.events, result := none }
    | none => { table := t, iter := hi, events := [], result := none }
  | some (b, j, n) =>
    let t1 := pinAt t b j
    match hi.node with
    | none =>
      { table := t1, iter := { node := some j, bucket := b }, events := [],
        result := some (n.key, n.value) }
    | some oi =>
      let d := derefAt t1 hi.bucket oi
      let j' := if d.destroyed = true ∧ b = hi.bucket then j - 1 else j
      { table := d.table, iter := { node := some j', bucket := b }, events := d.events,
        result := some (n.key, n.value) }

/-- Drive an iterator with repeated hashtable_iter_next calls until it
returns null, collecting the returned keys (fuel bounds the call count). -/
def iterRun (fuel : Nat) (t : HashTable) (hi : HashtableIter) : List Key :=
  match fuel with
  | 0 => []
  | fuel + 1 =>
    let r := hashtable_iter_next t hi
    match r.result with
    | none => []
    | some kv => kv.1 :: iterRun fuel r.table r.iter

/-- All keys currently linked in the table, in bucket order then chain
order. -/
def allKeys (t : HashTable) : List Key :=
  (t.buckets.map (fun c => c.map (fun n => n.key))).flatten

/-- Structural well-formedness: the bucket array has 2^order chains, every
node sits in the bucket its key hashes to, keys are globally unique, and
refcounts are live uint32 values. -/
def wf (t : HashTable) : Prop :=
  t.buckets.length = 2 ^ t.order ∧
  (∀ b < t.buckets.length, ∀ n ∈ bucketOf t b, qb_hash_string n.key t.order = b) ∧
  (allKeys t).Nodup ∧
  (∀ c ∈ t.buckets, ∀ n ∈ c, 0 < n.refcount ∧ n.refcount < U32) ∧
  t.count < U64

/-- A quiescent table: no iterator pin is outstanding, every refcount is 1. -/
def quiescent (t : HashTable) : Prop :=
  ∀ c ∈ t.buckets, ∀ n ∈ c, n.refcount = 1

instance (t : HashTable) : Decidable (wf t) := by
  unfold wf; infer_instance

instance (t : HashTable) : Decidable (quiescent t) := by
  unfold quiescent; infer_instance

/-! Lemmas about the create loop. -/

lemma bitsAux_eq_log (fuel n : Nat) (hfn : n ≤ fuel) :
    bitsAux fuel n = if n = 0 then 0 else Nat.log 2 n + 1 := by
  induction fuel generalizing n with
  | zero =>
    interval_cases n
    simp [bitsAux]
  | succ fuel ih =>
    rcases Nat.eq_zero_or_pos n with h0 | h0
    · simp [bitsAux, h0]
    · have hne : n ≠ 0 := Nat.pos_iff_ne_zero.1 h0
      have hlt : n / 2 < n := Nat.div_lt_self h0 (by omega)
      have hrec := ih (n / 2) (by omega)
      rcases Nat.lt_or_ge n 2 with h1 | h1
      · have h2 : n = 1 := by omega
        subst h2
        simp [bitsAux, hrec]
      · have hd0 : n / 2 ≠ 0 := by
          have := Nat.div_pos h1 (by norm_num)
          omega
        have hlog : Nat.log 2 (n / 2) = Nat.log 2 n - 1 := Nat.log_div_base 2 n
        have hpos : 0 < Nat.log 2 n := Nat.log_pos (by omega) h1
        simp only [bitsAux, hne, if_false, hrec, hd0, hlog]
        omega

lemma bits_eq_log (n : Nat) (hn : 1 ≤ n) :
    bits n = Nat.log 2 n + 1 := by
  have := bitsAux_eq_log n n le_rfl
  simpa [bits, Nat.pos_iff_ne_zero.1 hn] using this

/-- C1 (amended): for max_size in the int32-faithful range, create builds a
table whose order is max(3, floor(log2 max_size) + 1) — the binary digit
count of max_size, not max(3, ceil(log2 max_size)) — and whose bucket array
has exactly 2^order buckets; in particular create with max_size = 1 yields
order 3 and 8 buckets. -/
theorem C1_create_order (m : Nat) (h1 : 1 ≤ m) (_h2 : m < 2 ^ 31) :
    (qb_hashtable_create m).order = max 3 (Nat.log 2 m + 1) ∧
    (qb_hashtable_create m).buckets.length = 2 ^ (qb_hashtable_create m).order ∧
    (qb_hashtable_create 1).order = 3 ∧ (qb_hashtable_create 1).buckets.length = 8 := by
  refine ⟨?_, ?_, by decide, by decide⟩
  · simp [qb_hashtable_create, bits_eq_log m h1, Nat.max_comm]
  · simp [qb_hashtable_create]

/-- C1 counterexample: at max_size = 8 the create loop computes order 4
(the digit count of 8), while the claimed formula max(3, ceil(log2 8))
gives 3. -/
theorem C1_cex :
    ¬ ((qb_hashtable_create 8).order = max 3 (Nat.clog 2 8)) := by
  have hc : Nat.clog 2 8 = 3 := by
    have hle : Nat.clog 2 8 ≤ 3 := (Nat.le_pow_iff_clog_le (by norm_num)).1 (by norm_num)
    have hgt : ¬ (Nat.clog 2 8 ≤ 2) := by
      intro h
      exact absurd ((Nat.le_pow_iff_clog_le (by norm_num)).2 h) (by norm_num)
    omega
  have ho : (qb_hashtable_create 8).order = 4 := by decide
  rw [ho, hc]
  decide

theorem C1_create_order_witness :
    (1 ≤ 1 ∧ 1 < 2 ^ 31) ∧
    ((qb_hashtable_create 1).order = max 3 (Nat.log 2 1 + 1) ∧
     (qb_hashtable_create 1).buckets.length = 2 ^ (qb_hashtable_create 1).order ∧
     (qb_hashtable_create 1).order = 3 ∧ (qb_hashtable_create 1).buckets.length = 8) :=
  ⟨⟨le_rfl, by norm_num⟩, C1_create_order 1 le_rfl (by norm_num)⟩

/-! Notifier registration lemmas (notify_add). -/

/-- C10: the FREE-uniqueness check of notify_add compares only the events
masks for exact equality: a registration whose mask includes FREE is
rejected with -EEXIST whenever an existing notifier on the list carries the
identical events mask, even when its callback and user_data differ, and
when no existing notifier carries the identical mask the registration is
accepted (appended at the tail for FREE-including masks, prepended
otherwise), even if an existing mask includes FREE. -/
theorem C10_notify_add_free_mask (head : List Notifier) (fn events ud : Nat) :
    (∀ f ∈ head, events &&& QB_MAP_NOTIFY_FREE ≠ 0 → f.events = events →
      hashtable_notify_add_list head fn events ud = (-(EEXIST : Int), head)) ∧
    ((∀ f ∈ head, f.events ≠ events) →
      hashtable_notify_add_list head fn events ud =
        (0, if events &&& QB_MAP_NOTIFY_FREE ≠ 0
            then head ++ [⟨events, fn, ud⟩] else ⟨events, fn, ud⟩ :: head)) := by
  constructor
  · intro f hf hfree hfe
    have hscan : notify_dup_scan head fn events ud = true := by
      refine List.any_eq_true.2 ⟨f, hf, ?_⟩
      simp [hfe, hfree]
    simp [hashtable_notify_add_list, hscan]
  · intro hne
    have hscan : notify_dup_scan head fn events ud = false := by
      unfold notify_dup_scan
      rw [List.any_eq_false]
      intro f hf
      simp [hne f hf]
    by_cases hfree : events &&& QB_MAP_NOTIFY_FREE = 0 <;>
      simp [hashtable_notify_add_list, hscan, hfree]

theorem C10_notify_add_free_mask_witness :
    ((⟨10, 7, 0⟩ : Notifier) ∈ [(⟨10, 7, 0⟩ : Notifier)] ∧ (10 : Nat) &&& QB_MAP_NOTIFY_FREE ≠ 0) ∧
    hashtable_notify_add_list [(⟨10, 7, 0⟩ : Notifier)] 9 10 3 =
      (-(EEXIST : Int), [(⟨10, 7, 0⟩ : Notifier)]) :=
  ⟨⟨by decide, by decide⟩,
    (C10_notify_add_free_mask [(⟨10, 7, 0⟩ : Notifier)] 9 10 3).1
      ⟨10, 7, 0⟩ (by decide) (by decide) rfl⟩

/-- C4 (amended): notify_add with events == FREE is rejected with -EEXIST
whenever a notifier whose events mask is exactly FREE already exists on the
same (per-entry or table-wide) list; and notify_add with any events mask is
rejected with -EEXIST when an existing notifier on the same list has an
identical (events, callback, user_data) triple. -/
theorem C4_notify_add_eexist :
    (∀ (head : List Notifier) (fn ud : Nat) (f : Notifier), f ∈ head →
      f.events = QB_MAP_NOTIFY_FREE →
      hashtable_notify_add_list head fn QB_MAP_NOTIFY_FREE ud = (-(EEXIST : Int), head)) ∧
    (∀ (head : List Notifier) (fn events ud : Nat), (⟨events, fn, ud⟩ : Notifier) ∈ head →
      hashtable_notify_add_list head fn events ud = (-(EEXIST : Int), head)) ∧
    (∀ (t : HashTable) (fn ud : Nat) (f : Notifier), f ∈ t.notifier_head →
      f.events = QB_MAP_NOTIFY_FREE →
      (hashtable_notify_add t none fn QB_MAP_NOTIFY_FREE ud).1 = -(EEXIST : Int)) ∧
    (∀ (t : HashTable) (k : Key) (n : Node) (fn ud : Nat) (f : Notifier),
      hashtable_lookup t k = some n → f ∈ n.notifier_head →
      f.events = QB_MAP_NOTIFY_FREE →
      (hashtable_notify_add t (some k) fn QB_MAP_NOTIFY_FREE ud).1 = -(EEXIST : Int)) := by
  have hfreescan : ∀ (head : List Notifier) (fn ud : Nat) (f : Notifier), f ∈ head →
      f.events = QB_MAP_NOTIFY_FREE →
      hashtable_notify_add_list head fn QB_MAP_NOTIFY_FREE ud = (-(EEXIST : Int), head) := by
    intro head fn ud f hf hfe
    have hscan : notify_dup_scan head fn QB_MAP_NOTIFY_FREE ud = true := by
      refine List.any_eq_true.2 ⟨f, hf, ?_⟩
      simp [hfe, QB_MAP_NOTIFY_FREE]
    simp [hashtable_notify_add_list, hscan]
  refine ⟨hfreescan, ?_, ?_, ?_⟩
  · intro head fn events ud hf
    have hscan : notify_dup_scan head fn events ud = true := by
      refine List.any_eq_true.2 ⟨⟨events, fn, ud⟩, hf, ?_⟩
      simp
    simp [hashtable_notify_add_list, hscan]
  · intro t fn ud f hf hfe
    simp [hashtable_notify_add, hfreescan t.notifier_head fn ud f hf hfe]
  · intro t k n fn ud f hl hf hfe
    have hlist := hfreescan n.notifier_head fn ud f hf hfe
    simp [hashtable_notify_add, hl, hlist, EEXIST]

theorem C4_notify_add_eexist_witness :
    ((⟨8, 7, 0⟩ : Notifier) ∈ [(⟨8, 7, 0⟩ : Notifier)] ∧
      (⟨8, 7, 0⟩ : Notifier).events = QB_MAP_NOTIFY_FREE) ∧
    hashtable_notify_add_list [(⟨8, 7, 0⟩ : Notifier)] 9 QB_MAP_NOTIFY_FREE 3 =
      (-(EEXIST : Int), [(⟨8, 7, 0⟩ : Notifier)]) :=
  ⟨⟨by decide, by decide⟩,
    C4_notify_add_eexist.1 [(⟨8, 7, 0⟩ : Notifier)] 9 3 ⟨8, 7, 0⟩ (by decide) rfl⟩

/-- C4 counterexample: with an existing table-wide notifier whose events
mask is DELETED|FREE = 10 (a mask that includes FREE without being exactly
FREE), a registration with events == FREE is accepted with return 0, not
rejected with -EEXIST as the claim states. -/
theorem C4_cex :
    (hashtable_notify_add (qb_hashtable_create 1) none 7 10 0).1 = 0 ∧
    (hashtable_notify_add (hashtable_notify_add (qb_hashtable_create 1) none 7 10 0).2
        none 9 QB_MAP_NOTIFY_FREE 3).1 = 0 ∧
    (hashtable_notify_add (hashtable_notify_add (qb_hashtable_create 1) none 7 10 0).2
        none 9 QB_MAP_NOTIFY_FREE 3).1 ≠ -(EEXIST : Int) := by
  exact ⟨by decide, by decide, by decide⟩

/-- The chain scan of put finds nothing when no node of the chain carries
the key. -/
lemma replaceInChain_eq_none (k : Key) (v : Nat) (c : List Node)
    (h : ∀ n ∈ c, n.key ≠ k) : replaceInChain k v c = none := by
  induction c with
  | nil => rfl
  | cons n rest ih =>
    have hn : n.key ≠ k := h n (List.mem_cons_self n rest)
    simp [replaceInChain, hn, ih (fun m hm => h m (List.mem_cons_of_mem n hm))]

/-- A none result of hashtable_lookup means no node of the scanned chain
carries the key. -/
lemma lookup_none_no_match (t : HashTable) (k : Key)
    (h : hashtable_lookup t k = none) :
    ∀ n ∈ bucketOf t (qb_hash_string k t.order), n.key ≠ k := by
  intro n hn
  have := List.find?_eq_none.1 h n hn
  simpa using this

/-- C7: when allocation of the new entry fails during put of an absent key,
the operation is abandoned atomically: the table (bucket chains, count and
notifier lists) is unchanged, no notification is delivered, and errno is
set to ENOMEM. -/
theorem C7_put_alloc_failure (t : HashTable) (k : Key) (v : Nat)
    (habs : hashtable_lookup t k = none) :
    hashtable_put t k v false = { table := t, events := [], errno := some ENOMEM } := by
  have hchain := replaceInChain_eq_none k v _ (lookup_none_no_match t k habs)
  simp [hashtable_put, hchain]

theorem C7_put_alloc_failure_witness :
    hashtable_lookup (qb_hashtable_create 1) [97] = none ∧
    hashtable_put (qb_hashtable_create 1) [97] 5 false =
      { table := qb_hashtable_create 1, events := [], errno := some ENOMEM } :=
  ⟨by decide, C7_put_alloc_failure (qb_hashtable_create 1) [97] 5 (by decide)⟩

/-! Helpers about bucket indices and chain decompositions. -/

lemma qb_hash_string_lt (k : Key) (order : Nat) :
    qb_hash_string k order < 2 ^ order := by
  have hpos : 0 < 2 ^ order := by positivity
  simp only [qb_hash_string, hash_fnv]
  exact Nat.mod_lt _ hpos

lemma bucketOf_eq_getElem (t : HashTable) (h : Nat) (hlt : h < t.buckets.length) :
    bucketOf t h = t.buckets[h] := by
  simp [bucketOf, List.getD_eq_getElem?_getD, List.getElem?_eq_getElem hlt]

lemma bucketOf_mem (t : HashTable) (h : Nat) (hlt : h < t.buckets.length) :
    bucketOf t h ∈ t.buckets := by
  rw [bucketOf_eq_getElem t h hlt]
  exact List.getElem_mem hlt

lemma getD_set_self {α : Type} (l : List α) (i : Nat) (x d : α)
    (hlt : i < l.length) : (l.set i x).getD i d = x := by
  rw [List.getD_eq_getElem?_getD, List.getElem?_set_self (by simpa using hlt)]
  rfl

lemma u64_dec_eq_mod (x : Nat) (h : x < U64) :
    u64_dec x = (x + (U64 - 1)) % U64 := by
  have hU : U64 = 18446744073709551616 := by norm_num [U64]
  unfold u64_dec
  rw [hU]; rw [hU] at h
  split <;> omega

lemma u64_dec_lt (x : Nat) (h : x < U64) : u64_dec x < U64 := by
  have hU : U64 = 18446744073709551616 := by norm_num [U64]
  unfold u64_dec
  rw [hU]; rw [hU] at h
  split <;> omega

/-- Deref of a node with refcount 1 destroys it. -/
lemma hashtable_node_deref_one (nots : List Notifier) (n : Node)
    (h1 : n.refcount = 1) :
    hashtable_node_deref nots n = (none, hashtable_node_destroy nots n) := by
  have hz : u32_dec n.refcount = 0 := by
    rw [h1]; rfl
  simp [hashtable_node_deref, hz]

/-- Deref of a node with refcount ≥ 2 only decrements the count. -/
lemma hashtable_node_deref_ge2 (nots : List Notifier) (n : Node)
    (h2 : 2 ≤ n.refcount) :
    hashtable_node_deref nots n = (some { n with refcount := n.refcount - 1 }, []) := by
  have hz : u32_dec n.refcount = n.refcount - 1 := by
    unfold u32_dec
    rw [if_neg (by omega)]
  have hp : 0 < n.refcount - 1 := by omega
  simp [hashtable_node_deref, hz, hp]

/-- The first find? match splits the chain into an unmatched prefix, the
node, and the rest. -/
lemma find?_key_decomp (c : List Node) (k : Key) (n : Node)
    (h : c.find? (fun m => m.key == k) = some n) :
    ∃ pre post, c = pre ++ n :: post ∧ (∀ m ∈ pre, m.key ≠ k) ∧ n.key = k := by
  induction c with
  | nil => simp at h
  | cons m rest ih =>
    by_cases hm : m.key = k
    · rw [List.find?_cons_of_pos _ (by simp [hm])] at h
      obtain rfl : m = n := by simpa using h
      exact ⟨[], rest, rfl, by simp, hm⟩
    · rw [List.find?_cons_of_neg _ (by simp [hm])] at h
      obtain ⟨pre, post, hc, hpre, hk⟩ := ih h
      refine ⟨m :: pre, post, by simp [hc], ?_, hk⟩
      intro x hx
      rcases List.mem_cons.1 hx with rfl | hx
      · exact hm
      · exact hpre x hx

lemma find?_key_skip (k : Key) (pre rest : List Node)
    (hpre : ∀ m ∈ pre, m.key ≠ k) :
    (pre ++ rest).find? (fun m => m.key == k) = rest.find? (fun m => m.key == k) := by
  rw [List.find?_append]
  have hnone : pre.find? (fun m => m.key == k) = none :=
    List.find?_eq_none.2 (by intro m hm; simpa using hpre m hm)
  simp [hnone]

lemma rmFromChain_skip (nots : List Notifier) (k : Key) (pre rest : List Node)
    (hpre : ∀ m ∈ pre, m.key ≠ k) :
    rmFromChain nots k (pre ++ rest) =
      (rmFromChain nots k rest).map (fun p => (pre ++ p.1, p.2)) := by
  induction pre with
  | nil =>
    cases hr : rmFromChain nots k rest with
    | none => simp [hr]
    | some p => simp [hr]
  | cons m pre' ih =>
    have hm : m.key ≠ k := hpre m (List.mem_cons_self m pre')
    have ih' := ih (fun x hx => hpre x (List.mem_cons_of_mem m hx))
    cases hr : rmFromChain nots k rest with
    | none => simp [rmFromChain, hm, ih', hr]
    | some p => simp [rmFromChain, hm, ih', hr]

lemma rmFromChain_none (nots : List Notifier) (k : Key) (c : List Node)
    (h : ∀ m ∈ c, m.key ≠ k) : rmFromChain nots k c = none := by
  induction c with
  | nil => rfl
  | cons m rest ih =>
    have hm : m.key ≠ k := h m (List.mem_cons_self m rest)
    simp [rmFromChain, hm, ih (fun x hx => h x (List.mem_cons_of_mem m hx))]

lemma replaceInChain_skip (k : Key) (v : Nat) (pre rest : List Node)
    (hpre : ∀ m ∈ pre, m.key ≠ k) :
    replaceInChain k v (pre ++ rest) =
      (replaceInChain k v rest).map (fun p => (pre ++ p.1, p.2)) := by
  induction pre with
  | nil =>
    cases hr : replaceInChain k v rest with
    | none => simp [hr]
    | some p => simp [hr]
  | cons m pre' ih =>
    have hm : m.key ≠ k := hpre m (List.mem_cons_self m pre')
    have ih' := ih (fun x hx => hpre x (List.mem_cons_of_mem m hx))
    cases hr : replaceInChain k v rest with
    | none => simp [replaceInChain, hm, ih', hr]
    | some p => simp [replaceInChain, hm, ih', hr]

lemma wf_rc_bounds (t : HashTable) (hwf : wf t) (h : Nat) (n : Node)
    (hlt : h < t.buckets.length) (hmem : n ∈ bucketOf t h) :
    0 < n.refcount ∧ n.refcount < U32 :=
  hwf.2.2.2.1 (bucketOf t h) (bucketOf_mem t h hlt) n hmem

/-- The chain of the bucket a table update just wrote. -/
lemma bucketOf_mk_set (count order : Nat) (nh : List Notifier)
    (bs : List (List Node)) (h : Nat) (c : List Node) (hlt : h < bs.length) :
    bucketOf { count := count, order := order, notifier_head := nh,
               buckets := bs.set h c } h = c := by
  simp [bucketOf, List.getD_eq_getElem?_getD,
    List.getElem?_set_self (by simpa using hlt)]

/-- get through a chain whose find? result is known. -/
lemma hashtable_get_of_chain (t : HashTable) (k : Key) (n : Node)
    (hfind : (bucketOf t (qb_hash_string k t.order)).find? (fun m => m.key == k) = some n) :
    hashtable_get t k = some n.value := by
  simp [hashtable_get, hashtable_lookup_value, hfind]

/-- rm through a chain whose rmFromChain result is known. -/
lemma hashtable_rm_of_some (t : HashTable) (k : Key) (c : List Node)
    (e : List Invocation)
    (h : rmFromChain t.notifier_head k (bucketOf t (qb_hash_string k t.order)) =
      some (c, e)) :
    (hashtable_rm t k).removed = true ∧
    (hashtable_rm t k).table.count = u64_dec t.count ∧
    (hashtable_rm t k).events = e ∧
    (hashtable_rm t k).table.buckets = t.buckets.set (qb_hash_string k t.order) c ∧
    (hashtable_rm t k).table.order = t.order ∧
    (hashtable_rm t k).table.notifier_head = t.notifier_head := by
  simp [hashtable_rm, hashtable_rm_with_hash, h]

/-- A chain containing a node with the key always yields a removal. -/
lemma rmFromChain_isSome_of_match (nots : List Notifier) (k : Key) (c : List Node)
    (h : ∃ m ∈ c, m.key = k) : (rmFromChain nots k c).isSome = true := by
  induction c with
  | nil => simp at h
  | cons m rest ih =>
    by_cases hm : m.key = k
    · cases hd : hashtable_node_deref nots m with
      | mk o evs => cases o <;> simp [rmFromChain, hm, hd]
    · obtain ⟨x, hx, hxk⟩ := h
      rcases List.mem_cons.1 hx with rfl | hx2
      · exact absurd hxk hm
      · have hrest := ih ⟨x, hx2, hxk⟩
        simp [rmFromChain, hm, hrest]

/-- C9: rm of a key whose entry has refcount greater than 1 (for example
while pinned by an iterator) returns true and decrements the table count,
but the entry remains linked in its bucket chain: an immediately following
get still returns its value, and a second rm also returns true and
decrements the count again. -/
theorem C9_rm_pinned (t : HashTable) (k : Key) (n : Node)
    (hwf : wf t) (hl : hashtable_lookup t k = some n) (hrc : 2 ≤ n.refcount) :
    (hashtable_rm t k).removed = true ∧
    (hashtable_rm t k).table.count = (t.count + (U64 - 1)) % U64 ∧
    (hashtable_rm t k).events = [] ∧
    hashtable_get (hashtable_rm t k).table k = some n.value ∧
    (hashtable_rm (hashtable_rm t k).table k).removed = true ∧
    (hashtable_rm (hashtable_rm t k).table k).table.count =
      ((hashtable_rm t k).table.count + (U64 - 1)) % U64 := by
  have hlt : qb_hash_string k t.order < t.buckets.length := by
    rw [hwf.1]; exact qb_hash_string_lt k t.order
  have hcnt : t.count < U64 := hwf.2.2.2.2
  obtain ⟨pre, post, hchain, hpre, hkey⟩ := find?_key_decomp _ k n hl
  subst hkey
  have hderef := hashtable_node_deref_ge2 t.notifier_head n hrc
  have hrm1 : rmFromChain t.notifier_head n.key (bucketOf t (qb_hash_string n.key t.order)) =
      some (pre ++ { n with refcount := n.refcount - 1 } :: post, []) := by
    rw [hchain, rmFromChain_skip t.notifier_head n.key pre _ hpre]
    simp [rmFromChain, hderef]
  have hfind2 : (pre ++ { n with refcount := n.refcount - 1 } :: post).find?
      (fun m => m.key == n.key) = some { n with refcount := n.refcount - 1 } := by
    rw [find?_key_skip n.key pre _ hpre]
    exact List.find?_cons_of_pos _ (by simp)
  have hr1 : hashtable_rm t n.key =
      { table := { t with
          buckets := t.buckets.set (qb_hash_string n.key t.order)
            (pre ++ { n with refcount := n.refcount - 1 } :: post)
          count := u64_dec t.count },
        removed := true, events := [] } := by
    simp [hashtable_rm, hashtable_rm_with_hash, hrm1]
  have hsome := rmFromChain_isSome_of_match t.notifier_head n.key
      (pre ++ { n with refcount := n.refcount - 1 } :: post)
      ⟨{ n with refcount := n.refcount - 1 }, by simp, rfl⟩
  obtain ⟨⟨c2, e2⟩, hrm2⟩ := Option.isSome_iff_exists.1 hsome
  have horder : (hashtable_rm t n.key).table.order = t.order := by
    rw [hr1]
  have hnots : (hashtable_rm t n.key).table.notifier_head = t.notifier_head := by
    rw [hr1]
  have hc1 : (hashtable_rm t n.key).table.count = u64_dec t.count := by
    rw [hr1]
  have hbuck : bucketOf (hashtable_rm t n.key).table (qb_hash_string n.key t.order) =
      pre ++ { n with refcount := n.refcount - 1 } :: post := by
    rw [hr1]
    exact bucketOf_mk_set _ _ _ _ _ _ hlt
  have hx : rmFromChain (hashtable_rm t n.key).table.notifier_head n.key
      (bucketOf (hashtable_rm t n.key).table
        (qb_hash_string n.key (hashtable_rm t n.key).table.order)) = some (c2, e2) := by
    rw [horder, hnots, hbuck]
    exact hrm2
  refine ⟨by rw [hr1], ?_, by rw [hr1], ?_, (hashtable_rm_of_some _ _ _ _ hx).1, ?_⟩
  · rw [hc1]
    exact u64_dec_eq_mod t.count hcnt
  · refine hashtable_get_of_chain _ _ { n with refcount := n.refcount - 1 } ?_
    rw [horder, hbuck]
    exact hfind2
  · rw [(hashtable_rm_of_some _ _ _ _ hx).2.1, hc1]
    exact u64_dec_eq_mod (u64_dec t.count) (u64_dec_lt t.count hcnt)

/-- The rm result on a miss: nothing changes and QB_FALSE is returned. -/
lemma hashtable_rm_of_none (t : HashTable) (k : Key)
    (h : rmFromChain t.notifier_head k (bucketOf t (qb_hash_string k t.order)) = none) :
    hashtable_rm t k = { table := t, removed := false, events := [] } := by
  simp [hashtable_rm, hashtable_rm_with_hash, h]

/-- get misses when the scanned chain has no key match. -/
lemma hashtable_get_of_none (t : HashTable) (k : Key)
    (hfind : (bucketOf t (qb_hash_string k t.order)).find? (fun m => m.key == k) = none) :
    hashtable_get t k = none := by
  simp [hashtable_get, hashtable_lookup_value, hfind]

/-- Field view of a put that inserts a fresh node (no key match in the
chain, allocation succeeding). -/
lemma hashtable_put_insert (t : HashTable) (k : Key) (v : Nat)
    (habs : ∀ m ∈ bucketOf t (qb_hash_string k t.order), m.key ≠ k) :
    (hashtable_put t k v true).table.buckets =
      t.buckets.set (qb_hash_string k t.order)
        (bucketOf t (qb_hash_string k t.order) ++ [⟨k, v, 1, []⟩]) ∧
    (hashtable_put t k v true).table.count = (t.count + 1) % U64 ∧
    (hashtable_put t k v true).table.order = t.order ∧
    (hashtable_put t k v true).table.notifier_head = t.notifier_head ∧
    (hashtable_put t k v true).events =
      hashtable_notify (copy_notify_list t.notifier_head [] QB_MAP_NOTIFY_INSERTED)
        k none (some v) ∧
    (hashtable_put t k v true).errno = none := by
  have hrepl := replaceInChain_eq_none k v _ habs
  simp [hashtable_put, hrepl]

/-- Field view of a put that overwrites the first matching node in place. -/
lemma hashtable_put_replace (t : HashTable) (k : Key) (v : Nat)
    (pre post : List Node) (n : Node)
    (hchain : bucketOf t (qb_hash_string k t.order) = pre ++ n :: post)
    (hpre : ∀ m ∈ pre, m.key ≠ k) (hkey : n.key = k) :
    (hashtable_put t k v true).table.buckets =
      t.buckets.set (qb_hash_string k t.order)
        (pre ++ { n with key := k, value := v } :: post) ∧
    (hashtable_put t k v true).table.count = t.count ∧
    (hashtable_put t k v true).table.order = t.order ∧
    (hashtable_put t k v true).table.notifier_head = t.notifier_head ∧
    (hashtable_put t k v true).events =
      hashtable_notify
        (copy_notify_list t.notifier_head n.notifier_head QB_MAP_NOTIFY_REPLACED)
        n.key (some n.value) (some v) ∧
    (hashtable_put t k v true).errno = none := by
  have hrepl : replaceInChain k v (bucketOf t (qb_hash_string k t.order)) =
      some (pre ++ { n with key := k, value := v } :: post, n) := by
    rw [hchain, replaceInChain_skip k v pre _ hpre]
    simp [replaceInChain, hkey]
  simp [hashtable_put, hrepl]

/-- Keys of a single chain of a well-formed table are distinct. -/
lemma chain_keys_nodup (t : HashTable) (hwf : wf t) (h : Nat)
    (hlt : h < t.buckets.length) :
    ((bucketOf t h).map (fun n => n.key)).Nodup := by
  have hall : ((t.buckets.map (fun c => c.map (fun n => n.key))).flatten).Nodup :=
    hwf.2.2.1
  exact (List.nodup_flatten.1 hall).1 _
    (List.mem_map_of_mem _ (bucketOf_mem t h hlt))

/-- In a chain with distinct keys, nothing after the matching node carries
its key. -/
lemma keys_nodup_no_match (pre post : List Node) (n : Node)
    (hnd : ((pre ++ n :: post).map (fun m => m.key)).Nodup) :
    ∀ m ∈ post, m.key ≠ n.key := by
  intro m hm heq
  rw [List.map_append, List.map_cons] at hnd
  have hc := (List.nodup_append.1 hnd).2.1
  have hnotin := (List.nodup_cons.1 hc).1
  exact hnotin (heq ▸ List.mem_map_of_mem _ hm)

/-- C2 (amended): for a present key whose entry has refcount 1 (not pinned
by any iterator), rm returns true, after which get returns none and a
second rm returns false; and the sequence put(k,v); rm(k); rm(k) on a table
without k, watched by a table-wide INSERTED|DELETED notifier, fires exactly
one INSERTED and one DELETED invocation while the rm calls return true then
false. -/
theorem C2_rm_semantics :
    (∀ (t : HashTable) (k : Key) (n : Node), wf t → hashtable_lookup t k = some n →
      n.refcount = 1 →
      (hashtable_rm t k).removed = true ∧
      hashtable_get (hashtable_rm t k).table k = none ∧
      (hashtable_rm (hashtable_rm t k).table k).removed = false) ∧
    (∀ (t : HashTable) (k : Key) (v cb ud : Nat), wf t → hashtable_lookup t k = none →
      t.notifier_head = [⟨QB_MAP_NOTIFY_INSERTED ||| QB_MAP_NOTIFY_DELETED, cb, ud⟩] →
      (hashtable_put t k v true).events =
        [⟨QB_MAP_NOTIFY_INSERTED, k, none, some v, cb, ud⟩] ∧
      (hashtable_rm (hashtable_put t k v true).table k).removed = true ∧
      (hashtable_rm (hashtable_put t k v true).table k).events =
        [⟨QB_MAP_NOTIFY_DELETED, k, some v, none, cb, ud⟩] ∧
      (hashtable_rm (hashtable_rm (hashtable_put t k v true).table k).table k).removed =
        false) := by
  constructor
  · intro t k n hwf hl h1
    have hlt : qb_hash_string k t.order < t.buckets.length := by
      rw [hwf.1]; exact qb_hash_string_lt k t.order
    obtain ⟨pre, post, hchain, hpre, hkey⟩ := find?_key_decomp _ k n hl
    subst hkey
    have hnd := chain_keys_nodup t hwf _ hlt
    rw [hchain] at hnd
    have hpost := keys_nodup_no_match pre post n hnd
    have hderef := hashtable_node_deref_one t.notifier_head n h1
    have hrm1 : rmFromChain t.notifier_head n.key
        (bucketOf t (qb_hash_string n.key t.order)) =
        some (pre ++ post, hashtable_node_destroy t.notifier_head n) := by
      rw [hchain, rmFromChain_skip t.notifier_head n.key pre _ hpre]
      simp [rmFromChain, hderef]
    have hview := hashtable_rm_of_some _ _ _ _ hrm1
    have hb1 : bucketOf (hashtable_rm t n.key).table (qb_hash_string n.key t.order) =
        pre ++ post := by
      unfold bucketOf
      rw [hview.2.2.2.1]
      exact getD_set_self _ _ _ _ hlt
    have hnomatch : ∀ m ∈ pre ++ post, m.key ≠ n.key := by
      intro m hm
      rcases List.mem_append.1 hm with hm2 | hm2
      · exact hpre m hm2
      · exact hpost m hm2
    have hfind0 : (pre ++ post).find? (fun m => m.key == n.key) = none :=
      List.find?_eq_none.2 (by intro m hm; simpa using hnomatch m hm)
    refine ⟨hview.1, ?_, ?_⟩
    · unfold hashtable_get hashtable_lookup_value
      rw [hview.2.2.2.2.1, hb1, hfind0]
      rfl
    · have hrm2 : rmFromChain (hashtable_rm t n.key).table.notifier_head n.key
          (bucketOf (hashtable_rm t n.key).table
            (qb_hash_string n.key (hashtable_rm t n.key).table.order)) = none := by
        rw [hview.2.2.2.2.1, hview.2.2.2.2.2, hb1]
        exact rmFromChain_none _ _ _ hnomatch
      rw [hashtable_rm_of_none _ _ hrm2]
  · intro t k v cb ud hwf hl hnot
    have hlt : qb_hash_string k t.order < t.buckets.length := by
      rw [hwf.1]; exact qb_hash_string_lt k t.order
    have hno := lookup_none_no_match t k hl
    have hput := hashtable_put_insert t k v hno
    have hev1 : (hashtable_put t k v true).events =
        [⟨QB_MAP_NOTIFY_INSERTED, k, none, some v, cb, ud⟩] := by
      rw [hput.2.2.2.2.1, hnot]
      simp [copy_notify_list, tableCopies, entryCopies, add_notify_event,
        hashtable_notify, QB_MAP_NOTIFY_INSERTED, QB_MAP_NOTIFY_DELETED,
        QB_MAP_NOTIFY_REPLACED, QB_MAP_NOTIFY_FREE]
    have hb1 : bucketOf (hashtable_put t k v true).table (qb_hash_string k t.order) =
        bucketOf t (qb_hash_string k t.order) ++ [⟨k, v, 1, []⟩] := by
      unfold bucketOf
      rw [hput.1]
      exact getD_set_self _ _ _ _ hlt
    have hrmc : rmFromChain t.notifier_head k
        (bucketOf t (qb_hash_string k t.order) ++ [⟨k, v, 1, []⟩]) =
        some (bucketOf t (qb_hash_string k t.order),
          hashtable_node_destroy t.notifier_head ⟨k, v, 1, []⟩) := by
      rw [rmFromChain_skip t.notifier_head k _ _ hno]
      simp [rmFromChain, hashtable_node_deref_one t.notifier_head ⟨k, v, 1, []⟩ rfl]
    have hx1 : rmFromChain (hashtable_put t k v true).table.notifier_head k
        (bucketOf (hashtable_put t k v true).table
          (qb_hash_string k (hashtable_put t k v true).table.order)) =
        some (bucketOf t (qb_hash_string k t.order),
          hashtable_node_destroy t.notifier_head ⟨k, v, 1, []⟩) := by
      rw [hput.2.2.1, hput.2.2.2.1, hb1]
      exact hrmc
    have hv2 := hashtable_rm_of_some _ _ _ _ hx1
    refine ⟨hev1, hv2.1, ?_, ?_⟩
    · rw [hv2.2.2.1, hashtable_node_destroy, hnot]
      simp [copy_notify_list, tableCopies, entryCopies, add_notify_event,
        hashtable_notify, QB_MAP_NOTIFY_INSERTED, QB_MAP_NOTIFY_DELETED,
        QB_MAP_NOTIFY_REPLACED, QB_MAP_NOTIFY_FREE]
      all_goals decide
    · have hb2 : bucketOf (hashtable_rm (hashtable_put t k v true).table k).table
          (qb_hash_string k t.order) = bucketOf t (qb_hash_string k t.order) := by
        unfold bucketOf
        rw [hv2.2.2.2.1, hput.2.2.1, hput.1, List.set_set]
        exact getD_set_self _ _ _ _ hlt
      have hx2 : rmFromChain
          (hashtable_rm (hashtable_put t k v true).table k).table.notifier_head k
          (bucketOf (hashtable_rm (hashtable_put t k v true).table k).table
            (qb_hash_string k
              (hashtable_rm (hashtable_put t k v true).table k).table.order)) = none := by
        rw [hv2.2.2.2.2.1, hput.2.2.1, hv2.2.2.2.2.2, hput.2.2.2.1, hb2]
        exact rmFromChain_none _ _ _ hno
      rw [hashtable_rm_of_none _ _ hx2]

/-- A one-entry table: create(1) followed by put("a", 5). -/
def exT0 : HashTable := (hashtable_put (qb_hashtable_create 1) [97] 5 true).table

/-- The same table with its entry pinned by a fresh iterator that took one
step (refcount 2). -/
def exPinned : HashTable :=
  (hashtable_iter_next exT0 (hashtable_iter_create exT0 none)).table

/-- An empty table carrying one table-wide INSERTED|DELETED notifier. -/
def exNotif : HashTable :=
  (hashtable_notify_add (qb_hashtable_create 1) none 7
    (QB_MAP_NOTIFY_INSERTED ||| QB_MAP_NOTIFY_DELETED) 9).2

/-- C2 counterexample: with the single entry pinned by an iterator
(refcount 2), rm returns true yet the immediately subsequent get still
returns the value, so the claim as stated over every present key fails. -/
theorem C2_cex :
    (hashtable_rm exPinned [97]).removed = true ∧
    hashtable_get (hashtable_rm exPinned [97]).table [97] = some 5 :=
  ⟨by decide, by decide⟩

theorem C2_rm_semantics_witness :
    (wf exT0 ∧ hashtable_lookup exT0 [97] = some ⟨[97], 5, 1, []⟩ ∧
      (⟨[97], 5, 1, []⟩ : Node).refcount = 1 ∧
      wf exNotif ∧ hashtable_lookup exNotif [97] = none ∧
      exNotif.notifier_head =
        [⟨QB_MAP_NOTIFY_INSERTED ||| QB_MAP_NOTIFY_DELETED, 7, 9⟩]) ∧
    ((hashtable_rm exT0 [97]).removed = true ∧
     hashtable_get (hashtable_rm exT0 [97]).table [97] = none ∧
     (hashtable_rm (hashtable_rm exT0 [97]).table [97]).removed = false) ∧
    ((hashtable_put exNotif [97] 5 true).events =
        [⟨QB_MAP_NOTIFY_INSERTED, [97], none, some 5, 7, 9⟩] ∧
     (hashtable_rm (hashtable_put exNotif [97] 5 true).table [97]).removed = true ∧
     (hashtable_rm (hashtable_put exNotif [97] 5 true).table [97]).events =
        [⟨QB_MAP_NOTIFY_DELETED, [97], some 5, none, 7, 9⟩] ∧
     (hashtable_rm (hashtable_rm (hashtable_put exNotif [97] 5 true).table [97]).table
        [97]).removed = false) :=
  ⟨⟨by decide, by decide, by decide, by decide, by decide, by decide⟩,
   C2_rm_semantics.1 exT0 [97] ⟨[97], 5, 1, []⟩ (by decide) (by decide) (by decide),
   C2_rm_semantics.2 exNotif [97] 5 7 9 (by decide) (by decide) (by decide)⟩

theorem C9_rm_pinned_witness :
    (wf exPinned ∧ hashtable_lookup exPinned [97] = some ⟨[97], 5, 2, []⟩ ∧
      2 ≤ (⟨[97], 5, 2, []⟩ : Node).refcount) ∧
    ((hashtable_rm exPinned [97]).removed = true ∧
     (hashtable_rm exPinned [97]).table.count = (exPinned.count + (U64 - 1)) % U64 ∧
     (hashtable_rm exPinned [97]).events = [] ∧
     hashtable_get (hashtable_rm exPinned [97]).table [97] =
       some (⟨[97], 5, 2, []⟩ : Node).value ∧
     (hashtable_rm (hashtable_rm exPinned [97]).table [97]).removed = true ∧
     (hashtable_rm (hashtable_rm exPinned [97]).table [97]).table.count =
       ((hashtable_rm exPinned [97]).table.count + (U64 - 1)) % U64) :=
  ⟨⟨by decide, by decide, by decide⟩,
   C9_rm_pinned exPinned [97] ⟨[97], 5, 2, []⟩ (by decide) (by decide) (by decide)⟩

/-- C3: for a table-wide observer registered with events = DELETED|FREE: a
put that replaces an existing key invokes it exactly once with events =
FREE; a subsequent rm of that key invokes it exactly twice, DELETED first
and FREE second; and in every snapshot built for a DELETED or REPLACED
event, each table-wide observer whose registration includes FREE
contributes a FREE-tagged copy. -/
theorem C3_free_synthesis :
    (∀ (t : HashTable) (k : Key) (v' cb ud : Nat) (n : Node), wf t →
      hashtable_lookup t k = some n → n.notifier_head = [] → n.refcount = 1 →
      t.notifier_head = [⟨QB_MAP_NOTIFY_DELETED ||| QB_MAP_NOTIFY_FREE, cb, ud⟩] →
      (hashtable_put t k v' true).events =
        [⟨QB_MAP_NOTIFY_FREE, k, some n.value, some v', cb, ud⟩] ∧
      (hashtable_rm (hashtable_put t k v' true).table k).removed = true ∧
      (hashtable_rm (hashtable_put t k v' true).table k).events =
        [⟨QB_MAP_NOTIFY_DELETED, k, some v', none, cb, ud⟩,
         ⟨QB_MAP_NOTIFY_FREE, k, some v', none, cb, ud⟩]) ∧
    (∀ (t_nots n_nots : List Notifier) (event : Nat) (tn : Notifier), tn ∈ t_nots →
      (event &&& QB_MAP_NOTIFY_DELETED ≠ 0 ∨ event &&& QB_MAP_NOTIFY_REPLACED ≠ 0) →
      tn.events &&& QB_MAP_NOTIFY_FREE ≠ 0 →
      { tn with events := QB_MAP_NOTIFY_FREE } ∈ copy_notify_list t_nots n_nots event) := by
  constructor
  · intro t k v' cb ud n hwf hl hent h1 hnot
    have hlt : qb_hash_string k t.order < t.buckets.length := by
      rw [hwf.1]; exact qb_hash_string_lt k t.order
    obtain ⟨pre, post, hchain, hpre, hkey⟩ := find?_key_decomp _ k n hl
    subst hkey
    have hput := hashtable_put_replace t n.key v' pre post n hchain hpre rfl
    have hev1 : (hashtable_put t n.key v' true).events =
        [⟨QB_MAP_NOTIFY_FREE, n.key, some n.value, some v', cb, ud⟩] := by
      rw [hput.2.2.2.2.1, hnot, hent]
      simp [copy_notify_list, tableCopies, entryCopies, add_notify_event,
        hashtable_notify, QB_MAP_NOTIFY_INSERTED, QB_MAP_NOTIFY_DELETED,
        QB_MAP_NOTIFY_REPLACED, QB_MAP_NOTIFY_FREE]
      all_goals decide
    have hb1 : bucketOf (hashtable_put t n.key v' true).table
        (qb_hash_string n.key t.order) =
        pre ++ { n with key := n.key, value := v' } :: post := by
      unfold bucketOf
      rw [hput.1]
      exact getD_set_self _ _ _ _ hlt
    have hderef := hashtable_node_deref_one t.notifier_head
      { n with key := n.key, value := v' } (by simp [h1])
    have hrmc : rmFromChain t.notifier_head n.key
        (pre ++ { n with key := n.key, value := v' } :: post) =
        some (pre ++ post,
          hashtable_node_destroy t.notifier_head { n with key := n.key, value := v' }) := by
      rw [rmFromChain_skip t.notifier_head n.key pre _ hpre]
      simp [rmFromChain, hderef]
    have hx1 : rmFromChain (hashtable_put t n.key v' true).table.notifier_head n.key
        (bucketOf (hashtable_put t n.key v' true).table
          (qb_hash_string n.key (hashtable_put t n.key v' true).table.order)) =
        some (pre ++ post,
          hashtable_node_destroy t.notifier_head { n with key := n.key, value := v' }) := by
      rw [hput.2.2.1, hput.2.2.2.1, hb1]
      exact hrmc
    have hv2 := hashtable_rm_of_some _ _ _ _ hx1
    refine ⟨hev1, hv2.1, ?_⟩
    rw [hv2.2.2.1, hashtable_node_destroy, hnot, hent]
    simp [copy_notify_list, tableCopies, entryCopies, add_notify_event,
      hashtable_notify, QB_MAP_NOTIFY_INSERTED, QB_MAP_NOTIFY_DELETED,
      QB_MAP_NOTIFY_REPLACED, QB_MAP_NOTIFY_FREE]
  · intro t_nots n_nots event tn htn hde hfree
    unfold copy_notify_list
    refine List.mem_append_right _ ?_
    refine List.mem_flatMap.2 ⟨tn, htn, ?_⟩
    unfold tableCopies add_notify_event
    refine List.mem_append_right _ ?_
    have hcond : ((event &&& QB_MAP_NOTIFY_DELETED != 0 ||
        event &&& QB_MAP_NOTIFY_REPLACED != 0) &&
        (tn.events &&& QB_MAP_NOTIFY_FREE != 0)) = true := by
      rcases hde with h | h <;> simp [h, hfree]
    rw [if_pos hcond]
    exact List.mem_singleton.2 rfl

/-- A one-entry table with a table-wide DELETED|FREE observer. -/
def exNotifDF : HashTable :=
  (hashtable_put (hashtable_notify_add (qb_hashtable_create 1) none 7
    (QB_MAP_NOTIFY_DELETED ||| QB_MAP_NOTIFY_FREE) 9).2 [97] 5 true).table

theorem C3_free_synthesis_witness :
    (wf exNotifDF ∧ hashtable_lookup exNotifDF [97] = some ⟨[97], 5, 1, []⟩ ∧
      (⟨[97], 5, 1, []⟩ : Node).notifier_head = [] ∧
      (⟨[97], 5, 1, []⟩ : Node).refcount = 1 ∧
      exNotifDF.notifier_head = [⟨QB_MAP_NOTIFY_DELETED ||| QB_MAP_NOTIFY_FREE, 7, 9⟩] ∧
      (⟨QB_MAP_NOTIFY_DELETED ||| QB_MAP_NOTIFY_FREE, 7, 9⟩ : Notifier) ∈
        [(⟨QB_MAP_NOTIFY_DELETED ||| QB_MAP_NOTIFY_FREE, 7, 9⟩ : Notifier)] ∧
      ((2 : Nat) &&& QB_MAP_NOTIFY_DELETED ≠ 0 ∨ (2 : Nat) &&& QB_MAP_NOTIFY_REPLACED ≠ 0) ∧
      (⟨QB_MAP_NOTIFY_DELETED ||| QB_MAP_NOTIFY_FREE, 7, 9⟩ : Notifier).events &&&
        QB_MAP_NOTIFY_FREE ≠ 0) ∧
    ((hashtable_put exNotifDF [97] 6 true).events =
        [⟨QB_MAP_NOTIFY_FREE, [97], some (⟨[97], 5, 1, []⟩ : Node).value, some 6, 7, 9⟩] ∧
     (hashtable_rm (hashtable_put exNotifDF [97] 6 true).table [97]).removed = true ∧
     (hashtable_rm (hashtable_put exNotifDF [97] 6 true).table [97]).events =
        [⟨QB_MAP_NOTIFY_DELETED, [97], some 6, none, 7, 9⟩,
         ⟨QB_MAP_NOTIFY_FREE, [97], some 6, none, 7, 9⟩]) ∧
    ({ (⟨QB_MAP_NOTIFY_DELETED ||| QB_MAP_NOTIFY_FREE, 7, 9⟩ : Notifier) with
        events := QB_MAP_NOTIFY_FREE } ∈
      copy_notify_list [(⟨QB_MAP_NOTIFY_DELETED ||| QB_MAP_NOTIFY_FREE, 7, 9⟩ : Notifier)]
        [] 2) :=
  ⟨⟨by decide, by decide, by decide, by decide, by decide, by decide,
    by decide, by decide⟩,
   C3_free_synthesis.1 exNotifDF [97] 6 7 9 ⟨[97], 5, 1, []⟩ (by decide) (by decide)
     (by decide) (by decide) (by decide),
   C3_free_synthesis.2 [(⟨QB_MAP_NOTIFY_DELETED ||| QB_MAP_NOTIFY_FREE, 7, 9⟩ : Notifier)]
     [] 2 ⟨QB_MAP_NOTIFY_DELETED ||| QB_MAP_NOTIFY_FREE, 7, 9⟩ (by decide) (by decide)
     (by decide)⟩

/-- C6: put(k,v); put(k,v') on a table without k, watched by a table-wide
INSERTED|REPLACED observer, fires exactly one INSERTED then exactly one
REPLACED invocation (the REPLACED one carrying old value v and new value
v'), after which get(k) returns v' and count() is the count before the
first put plus one. -/
theorem C6_put_put_replace (t : HashTable) (k : Key) (v v' cb ud : Nat)
    (hwf : wf t) (hl : hashtable_lookup t k = none)
    (hnot : t.notifier_head = [⟨QB_MAP_NOTIFY_INSERTED ||| QB_MAP_NOTIFY_REPLACED, cb, ud⟩])
    (hcnt : t.count + 1 < U64) :
    (hashtable_put t k v true).events =
      [⟨QB_MAP_NOTIFY_INSERTED, k, none, some v, cb, ud⟩] ∧
    (hashtable_put (hashtable_put t k v true).table k v' true).events =
      [⟨QB_MAP_NOTIFY_REPLACED, k, some v, some v', cb, ud⟩] ∧
    hashtable_get (hashtable_put (hashtable_put t k v true).table k v' true).table k =
      some v' ∧
    (hashtable_put (hashtable_put t k v true).table k v' true).table.count =
      t.count + 1 := by
  have hlt : qb_hash_string k t.order < t.buckets.length := by
    rw [hwf.1]; exact qb_hash_string_lt k t.order
  have hno := lookup_none_no_match t k hl
  have hput1 := hashtable_put_insert t k v hno
  have hev1 : (hashtable_put t k v true).events =
      [⟨QB_MAP_NOTIFY_INSERTED, k, none, some v, cb, ud⟩] := by
    rw [hput1.2.2.2.2.1, hnot]
    simp [copy_notify_list, tableCopies, entryCopies, add_notify_event,
      hashtable_notify, QB_MAP_NOTIFY_INSERTED, QB_MAP_NOTIFY_DELETED,
      QB_MAP_NOTIFY_REPLACED, QB_MAP_NOTIFY_FREE]
  have hchain2 : bucketOf (hashtable_put t k v true).table
      (qb_hash_string k (hashtable_put t k v true).table.order) =
      bucketOf t (qb_hash_string k t.order) ++ (⟨k, v, 1, []⟩ : Node) :: [] := by
    rw [hput1.2.2.1]
    unfold bucketOf
    rw [hput1.1]
    exact getD_set_self _ _ _ _ hlt
  have hput2 := hashtable_put_replace (hashtable_put t k v true).table k v'
    (bucketOf t (qb_hash_string k t.order)) [] ⟨k, v, 1, []⟩ hchain2 hno rfl
  refine ⟨hev1, ?_, ?_, ?_⟩
  · rw [hput2.2.2.2.2.1, hput1.2.2.2.1, hnot]
    simp [copy_notify_list, tableCopies, entryCopies, add_notify_event,
      hashtable_notify, QB_MAP_NOTIFY_INSERTED, QB_MAP_NOTIFY_DELETED,
      QB_MAP_NOTIFY_REPLACED, QB_MAP_NOTIFY_FREE]
    all_goals decide
  · refine hashtable_get_of_chain _ _ ⟨k, v', 1, []⟩ ?_
    have hb2 : bucketOf
        (hashtable_put (hashtable_put t k v true).table k v' true).table
        (qb_hash_string k t.order) =
        bucketOf t (qb_hash_string k t.order) ++ (⟨k, v', 1, []⟩ : Node) :: [] := by
      unfold bucketOf
      rw [hput2.1, hput1.2.2.1, hput1.1, List.set_set]
      exact getD_set_self _ _ _ _ hlt
    rw [hput2.2.2.1, hput1.2.2.1, hb2, find?_key_skip k _ _ hno]
    exact List.find?_cons_of_pos _ (by simp)
  · rw [hput2.2.1, hput1.2.1]
    exact Nat.mod_eq_of_lt hcnt

/-- An empty table carrying one table-wide INSERTED|REPLACED notifier. -/
def exNotifIR : HashTable :=
  (hashtable_notify_add (qb_hashtable_create 1) none 7
    (QB_MAP_NOTIFY_INSERTED ||| QB_MAP_NOTIFY_REPLACED) 9).2

theorem C6_put_put_replace_witness :
    (wf exNotifIR ∧ hashtable_lookup exNotifIR [97] = none ∧
      exNotifIR.notifier_head =
        [⟨QB_MAP_NOTIFY_INSERTED ||| QB_MAP_NOTIFY_REPLACED, 7, 9⟩] ∧
      exNotifIR.count + 1 < U64) ∧
    ((hashtable_put exNotifIR [97] 5 true).events =
        [⟨QB_MAP_NOTIFY_INSERTED, [97], none, some 5, 7, 9⟩] ∧
     (hashtable_put (hashtable_put exNotifIR [97] 5 true).table [97] 6 true).events =
        [⟨QB_MAP_NOTIFY_REPLACED, [97], some 5, some 6, 7, 9⟩] ∧
     hashtable_get
        (hashtable_put (hashtable_put exNotifIR [97] 5 true).table [97] 6 true).table
        [97] = some 6 ∧
     (hashtable_put (hashtable_put exNotifIR [97] 5 true).table [97] 6 true).table.count =
        exNotifIR.count + 1) :=
  ⟨⟨by decide, by decide, by decide, by decide⟩,
   C6_put_put_replace exNotifIR [97] 5 6 7 9 (by decide) (by decide) (by decide)
     (by decide)⟩


lemma getD_set_ne {α : Type} (l : List α) (i j : Nat) (x d : α) (hne : i ≠ j) :
    (l.set i x).getD j d = l.getD j d := by
  rw [List.getD_eq_getElem?_getD, List.getD_eq_getElem?_getD, List.getElem?_set_ne hne]

lemma getD_drop {α : Type} (l : List (List α)) (b k : Nat) :
    (l.drop b).getD k [] = l.getD (b + k) [] := by
  rw [List.getD_eq_getElem?_getD, List.getD_eq_getElem?_getD, List.getElem?_drop]

lemma bucketOf_lt_of_getElem (t : HashTable) (b i : Nat) (n : Node)
    (hn : (bucketOf t b)[i]? = some n) : b < t.buckets.length := by
  by_contra hge
  rw [bucketOf, List.getD_eq_default _ _ (by omega)] at hn
  simp at hn

lemma drop_set_of_lt {α : Type} : ∀ (c : List α) (i j : Nat) (x : α), i < j →
    (c.set i x).drop j = c.drop j := by
  intro c
  induction c with
  | nil => intro i j x h; rfl
  | cons a c ih =>
    intro i j x h
    match i, j with
    | 0, j + 1 => simp
    | i + 1, j + 1 =>
      simp only [List.set_cons_succ, List.drop_succ_cons]
      exact ih i j x (by omega)

lemma take_set_self {α : Type} : ∀ (c : List α) (i : Nat) (x : α),
    (c.set i x).take i = c.take i := by
  intro c
  induction c with
  | nil => intro i x; rfl
  | cons a c ih =>
    intro i x
    match i with
    | 0 => rfl
    | i + 1 =>
      simp only [List.set_cons_succ, List.take_succ_cons]
      rw [ih i x]

lemma drop_set_cons {α : Type} : ∀ (bs : List α) (b : Nat) (c : α), b < bs.length →
    (bs.set b c).drop b = c :: bs.drop (b + 1) := by
  intro bs
  induction bs with
  | nil => intro b c h; simp at h
  | cons a bs ih =>
    intro b c h
    match b with
    | 0 => rfl
    | b + 1 =>
      simp only [List.set_cons_succ, List.drop_succ_cons]
      exact ih b c (by simpa using h)

lemma scanFrom_set_lt (c : List Node) (rest : List (List Node)) (b i j : Nat)
    (x : Node) (hij : i < j) :
    scanFrom (c.set i x :: rest) b j = scanFrom (c :: rest) b j := by
  unfold scanFrom scanChainFrom
  rw [drop_set_of_lt c i j x hij]

lemma derefAt_of_deref_some (t : HashTable) (b i : Nat) (n n' : Node)
    (hn : (bucketOf t b)[i]? = some n)
    (hd : hashtable_node_deref t.notifier_head n = (some n', [])) :
    derefAt t b i =
      { table := { t with buckets := t.buckets.set b ((bucketOf t b).set i n') },
        events := [], destroyed := false } := by
  unfold derefAt
  simp [hn, hd]

lemma derefAt_of_deref_none (t : HashTable) (b i : Nat) (n : Node)
    (evs : List Invocation)
    (hn : (bucketOf t b)[i]? = some n)
    (hd : hashtable_node_deref t.notifier_head n = (none, evs)) :
    derefAt t b i =
      { table := { t with buckets := t.buckets.set b ((bucketOf t b).eraseIdx i) },
        events := evs, destroyed := true } := by
  unfold derefAt
  simp [hn, hd]

lemma hashtable_iter_next_of_scan_none (t : HashTable) (b i : Nat)
    (hscan : scanFrom (t.buckets.drop b) b (i + 1) = none) :
    hashtable_iter_next t ⟨some i, b⟩ =
      { table := (derefAt t b i).table, iter := ⟨some i, b⟩,
        events := (derefAt t b i).events, result := none } := by
  unfold hashtable_iter_next
  simp [iterStart, hscan]

lemma hashtable_iter_next_of_scan_some (t : HashTable) (b i b2 j : Nat) (n' : Node)
    (hscan : scanFrom (t.buckets.drop b) b (i + 1) = some (b2, j, n')) :
    hashtable_iter_next t ⟨some i, b⟩ =
      { table := (derefAt (pinAt t b2 j) b i).table,
        iter := ⟨some (if (derefAt (pinAt t b2 j) b i).destroyed = true ∧ b2 = b
                       then j - 1 else j), b2⟩,
        events := (derefAt (pinAt t b2 j) b i).events,
        result := some (n'.key, n'.value) } := by
  unfold hashtable_iter_next
  simp [iterStart, hscan]

lemma keys_nodup_no_match_pre (pre post : List Node) (n : Node)
    (hnd : ((pre ++ n :: post).map (fun m => m.key)).Nodup) :
    ∀ m ∈ pre, m.key ≠ n.key := by
  intro m hm heq
  rw [List.map_append] at hnd
  have hdisj := (List.nodup_append.1 hnd).2.2
  exact hdisj (List.mem_map_of_mem _ hm) (by rw [heq]; simp)

lemma chain_decomp_at (c : List Node) (i : Nat) (n : Node) (hn : (c)[i]? = some n) :
    c = c.take i ++ n :: c.drop (i + 1) := by
  obtain ⟨hlt, hv⟩ := List.getElem?_eq_some.1 hn
  conv_lhs => rw [← List.take_append_drop i c]
  rw [List.drop_eq_getElem_cons hlt, hv]

/-- C8: calling iter_next again on an iterator that has already returned
null derefs the previously pinned entry a second time.  The end-reaching
call returns null without clearing the cursor and leaves the entry with
refcount 1; the next call repeats the deref, so the entry is destroyed —
its DELETED notifications fire and it is unlinked from its chain — while
the table count is not decremented: afterwards get on its key returns none
but count() still includes it. -/
theorem C8_iter_next_past_end (t : HashTable) (b i : Nat) (n : Node)
    (hwf : wf t)
    (hn : (bucketOf t b)[i]? = some n)
    (hrc : n.refcount = 2)
    (hscan : scanFrom (t.buckets.drop b) b (i + 1) = none) :
    (hashtable_iter_next t ⟨some i, b⟩).result = none ∧
    (hashtable_iter_next t ⟨some i, b⟩).events = [] ∧
    (hashtable_iter_next t ⟨some i, b⟩).iter = ⟨some i, b⟩ ∧
    (hashtable_iter_next t ⟨some i, b⟩).table.count = t.count ∧
    hashtable_get (hashtable_iter_next t ⟨some i, b⟩).table n.key = some n.value ∧
    (hashtable_iter_next (hashtable_iter_next t ⟨some i, b⟩).table
      (hashtable_iter_next t ⟨some i, b⟩).iter).result = none ∧
    (hashtable_iter_next (hashtable_iter_next t ⟨some i, b⟩).table
      (hashtable_iter_next t ⟨some i, b⟩).iter).events =
      hashtable_node_destroy t.notifier_head { n with refcount := 1 } ∧
    (hashtable_iter_next (hashtable_iter_next t ⟨some i, b⟩).table
      (hashtable_iter_next t ⟨some i, b⟩).iter).table.count = t.count ∧
    hashtable_get (hashtable_iter_next (hashtable_iter_next t ⟨some i, b⟩).table
      (hashtable_iter_next t ⟨some i, b⟩).iter).table n.key = none := by
  have hb : b < t.buckets.length := bucketOf_lt_of_getElem t b i n hn
  have hilt : i < (bucketOf t b).length := (List.getElem?_eq_some.1 hn).1
  have hmem : n ∈ bucketOf t b := by
    obtain ⟨hlt, hv⟩ := List.getElem?_eq_some.1 hn
    exact hv ▸ List.getElem_mem hlt
  have hhash : qb_hash_string n.key t.order = b := hwf.2.1 b hb n hmem
  have hnd := chain_keys_nodup t hwf b hb
  have hdecomp := chain_decomp_at (bucketOf t b) i n hn
  have hndd : (((bucketOf t b).take i ++ n :: (bucketOf t b).drop (i + 1)).map
      (fun m => m.key)).Nodup := by rw [← hdecomp]; exact hnd
  have hpre := keys_nodup_no_match_pre _ _ _ hndd
  have hpost := keys_nodup_no_match _ _ _ hndd
  have hdn : hashtable_node_deref t.notifier_head n =
      (some { n with refcount := 1 }, []) := by
    rw [hashtable_node_deref_ge2 t.notifier_head n (by omega), hrc]
  set T1 : HashTable := { t with buckets := t.buckets.set b ((bucketOf t b).set i { n with refcount := 1 }) }
  have hr1 : hashtable_iter_next t ⟨some i, b⟩ =
      { table := T1, iter := ⟨some i, b⟩, events := [], result := none } := by
    rw [hashtable_iter_next_of_scan_none t b i hscan,
      derefAt_of_deref_some t b i n _ hn hdn]
  have hset1 : (bucketOf t b).set i { n with refcount := 1 } =
      (bucketOf t b).take i ++ { n with refcount := 1 } :: (bucketOf t b).drop (i + 1) := by
    rw [List.set_eq_take_append_cons_drop, if_pos hilt]
  have hchain1 : bucketOf T1 b = (bucketOf t b).set i { n with refcount := 1 } := by
    show (t.buckets.set b ((bucketOf t b).set i { n with refcount := 1 })).getD b [] = _
    exact getD_set_self _ _ _ _ hb
  have hscan2 : scanFrom (T1.buckets.drop b) b (i + 1) = none := by
    show scanFrom ((t.buckets.set b
      ((bucketOf t b).set i { n with refcount := 1 })).drop b) b (i + 1) = none
    rw [drop_set_cons _ _ _ hb, scanFrom_set_lt _ _ _ _ _ _ (Nat.lt_succ_self i)]
    rw [bucketOf_eq_getElem t b hb, ← List.drop_eq_getElem_cons hb]
    exact hscan
  have hdn2 : hashtable_node_deref T1.notifier_head { n with refcount := 1 } =
      (none, hashtable_node_destroy t.notifier_head { n with refcount := 1 }) := by
    show hashtable_node_deref t.notifier_head { n with refcount := 1 } = _
    exact hashtable_node_deref_one _ _ rfl
  have hn2 : (bucketOf T1 b)[i]? = some { n with refcount := 1 } := by
    rw [hchain1]
    exact List.getElem?_set_self hilt
  have hr2 : hashtable_iter_next T1 ⟨some i, b⟩ =
      { table := { T1 with buckets := T1.buckets.set b ((bucketOf T1 b).eraseIdx i) },
        iter := ⟨some i, b⟩,
        events := hashtable_node_destroy t.notifier_head { n with refcount := 1 },
        result := none } := by
    rw [hashtable_iter_next_of_scan_none T1 b i hscan2,
      derefAt_of_deref_none T1 b i { n with refcount := 1 } _ hn2 hdn2]
  have hblen : b < T1.buckets.length := by
    show b < (t.buckets.set b _).length
    simpa using hb
  have hchain2 : bucketOf (hashtable_iter_next T1 ⟨some i, b⟩).table
      (qb_hash_string n.key t.order) =
      (bucketOf t b).take i ++ (bucketOf t b).drop (i + 1) := by
    rw [hr2, hhash]
    show (T1.buckets.set b ((bucketOf T1 b).eraseIdx i)).getD b [] = _
    rw [getD_set_self _ _ _ _ hblen, hchain1, List.eraseIdx_eq_take_drop_succ,
      take_set_self, drop_set_of_lt _ _ _ _ (Nat.lt_succ_self i)]
  have hfind2 : ((bucketOf t b).take i ++ (bucketOf t b).drop (i + 1)).find?
      (fun m => m.key == n.key) = none := by
    refine List.find?_eq_none.2 ?_
    intro m hm
    rcases List.mem_append.1 hm with hm2 | hm2
    · simpa using hpre m hm2
    · simpa using hpost m hm2
  refine ⟨by rw [hr1], by rw [hr1], by rw [hr1], by rw [hr1], ?_, ?_, ?_, ?_, ?_⟩
  · rw [hr1]
    show hashtable_get T1 n.key = some n.value
    refine hashtable_get_of_chain _ _ { n with refcount := 1 } ?_
    have horder1 : qb_hash_string n.key T1.order = b := hhash
    rw [horder1, hchain1, hset1,
      find?_key_skip _ _ _ (fun m hm => hpre m hm),
      List.find?_cons_of_pos _ (by simp)]
  · rw [hr1]
    show (hashtable_iter_next T1 ⟨some i, b⟩).result = none
    rw [hr2]
  · rw [hr1]
    show (hashtable_iter_next T1 ⟨some i, b⟩).events =
      hashtable_node_destroy t.notifier_head { n with refcount := 1 }
    rw [hr2]
  · rw [hr1]
    show (hashtable_iter_next T1 ⟨some i, b⟩).table.count = t.count
    rw [hr2]
  · rw [hr1]
    show hashtable_get (hashtable_iter_next T1 ⟨some i, b⟩).table n.key = none
    refine hashtable_get_of_none _ _ ?_
    have horder2 : (hashtable_iter_next T1 ⟨some i, b⟩).table.order = t.order := by
      rw [hr2]
    rw [horder2, hchain2, hfind2]


theorem C8_iter_next_past_end_witness :
    (wf exPinned ∧
     (bucketOf exPinned 1)[0]? = some (⟨[97], 5, 2, []⟩ : Node) ∧
     (⟨[97], 5, 2, []⟩ : Node).refcount = 2 ∧
     scanFrom (exPinned.buckets.drop 1) 1 1 = none) ∧
    ((hashtable_iter_next exPinned ⟨some 0, 1⟩).result = none ∧
     (hashtable_iter_next exPinned ⟨some 0, 1⟩).events = [] ∧
     (hashtable_iter_next exPinned ⟨some 0, 1⟩).iter = ⟨some 0, 1⟩ ∧
     (hashtable_iter_next exPinned ⟨some 0, 1⟩).table.count = exPinned.count ∧
     hashtable_get (hashtable_iter_next exPinned ⟨some 0, 1⟩).table [97] = some 5 ∧
     (hashtable_iter_next (hashtable_iter_next exPinned ⟨some 0, 1⟩).table
       (hashtable_iter_next exPinned ⟨some 0, 1⟩).iter).result = none ∧
     (hashtable_iter_next (hashtable_iter_next exPinned ⟨some 0, 1⟩).table
       (hashtable_iter_next exPinned ⟨some 0, 1⟩).iter).events =
       hashtable_node_destroy exPinned.notifier_head ⟨[97], 5, 1, []⟩ ∧
     (hashtable_iter_next (hashtable_iter_next exPinned ⟨some 0, 1⟩).table
       (hashtable_iter_next exPinned ⟨some 0, 1⟩).iter).table.count = exPinned.count ∧
     hashtable_get (hashtable_iter_next (hashtable_iter_next exPinned ⟨some 0, 1⟩).table
       (hashtable_iter_next exPinned ⟨some 0, 1⟩).iter).table [97] = none) :=
  ⟨⟨by decide, by decide, by decide, by decide⟩,
   C8_iter_next_past_end exPinned 1 0 ⟨[97], 5, 2, []⟩
     (by decide) (by decide) (by decide) (by decide)⟩


/-- The keys at or after a resume index, bucket-suffix by bucket-suffix: the
tail of the visit order of an iterator resuming at that position. -/
def keysFromAux : List (List Node) → Nat → List Key
  | [], _ => []
  | c :: rest, start => (c.drop start).map (fun n => n.key) ++ keysFromAux rest 0

lemma keysFromAux_zero (bs : List (List Node)) :
    keysFromAux bs 0 = (bs.map (fun c => c.map (fun n => n.key))).flatten := by
  induction bs with
  | nil => rfl
  | cons c rest ih => simp [keysFromAux, ih]

lemma allKeys_eq_keysFromAux (t : HashTable) :
    allKeys t = keysFromAux t.buckets 0 := by
  rw [allKeys, keysFromAux_zero]

lemma scanChainAux_cons_pos (nn : Node) (rest : List Node) (i : Nat)
    (h : 0 < nn.refcount) : scanChainAux (nn :: rest) i = some (i, nn) := by
  unfold scanChainAux
  rw [if_pos h]

lemma scanFrom_none_keys : ∀ (bs : List (List Node)) (b s : Nat),
    (∀ c ∈ bs, ∀ nn ∈ c, 0 < nn.refcount) →
    scanFrom bs b s = none → keysFromAux bs s = [] := by
  intro bs
  induction bs with
  | nil => intro b s _ _; rfl
  | cons c rest ih =>
    intro b s hpos hscan
    unfold scanFrom at hscan
    rw [scanChainFrom] at hscan
    cases hcd : c.drop s with
    | cons hd tl =>
      rw [hcd, scanChainAux_cons_pos hd tl s
        (hpos c (List.mem_cons_self c rest) hd
          (List.mem_of_mem_drop (hcd ▸ List.mem_cons_self hd tl)))] at hscan
      simp at hscan
    | nil =>
      rw [hcd] at hscan
      simp only [scanChainAux] at hscan
      simp only [keysFromAux, hcd, List.map_nil, List.nil_append]
      exact ih (b + 1) 0
        (fun cc hcc nn hnn => hpos cc (List.mem_cons_of_mem c hcc) nn hnn) hscan

lemma scanFrom_some_spec : ∀ (bs : List (List Node)) (b s b' j' : Nat) (n' : Node),
    (∀ c ∈ bs, ∀ nn ∈ c, 0 < nn.refcount) →
    scanFrom bs b s = some (b', j', n') →
    b ≤ b' ∧ b' - b < bs.length ∧
    ((bs[b' - b]?).getD [])[j']? = some n' ∧
    (b' = b → s ≤ j') ∧
    keysFromAux bs s = n'.key :: keysFromAux (bs.drop (b' - b)) (j' + 1) := by
  intro bs
  induction bs with
  | nil => intro b s b' j' n' _ hscan; simp [scanFrom] at hscan
  | cons c rest ih =>
    intro b s b' j' n' hpos hscan
    unfold scanFrom at hscan
    rw [scanChainFrom] at hscan
    cases hcd : c.drop s with
    | cons hd tl =>
      rw [hcd, scanChainAux_cons_pos hd tl s
        (hpos c (List.mem_cons_self c rest) hd
          (List.mem_of_mem_drop (hcd ▸ List.mem_cons_self hd tl)))] at hscan
      simp only [Option.some.injEq, Prod.mk.injEq] at hscan
      obtain ⟨hb, hj, hn⟩ := hscan
      subst hb; subst hj; subst hn
      have hdropsucc : c.drop (s + 1) = tl := by
        have := congrArg (List.drop 1) hcd
        simpa [List.drop_drop, Nat.add_comm] using this
      refine ⟨le_refl b, by simp, ?_, fun _ => le_refl s, ?_⟩
      · have h0 : (c.drop s)[0]? = some hd := by rw [hcd]; simp
        rw [List.getElem?_drop] at h0
        simpa using h0
      · simp only [keysFromAux, Nat.sub_self, List.drop_zero, hcd, hdropsucc,
          List.map_cons, List.cons_append]
    | nil =>
      rw [hcd] at hscan
      simp only [scanChainAux] at hscan
      obtain ⟨hble, hlt, hget, himp, hkeys⟩ := ih (b + 1) 0 b' j' n'
        (fun cc hcc nn hnn => hpos cc (List.mem_cons_of_mem c hcc) nn hnn) hscan
      have hbb : b < b' := by omega
      have hsub : b' - b = (b' - (b + 1)) + 1 := by omega
      refine ⟨by omega, by simp; omega, ?_, fun h => absurd h (by omega), ?_⟩
      · rw [hsub]
        simpa using hget
      · simp only [keysFromAux, hcd, List.map_nil, List.nil_append, hsub,
          List.drop_succ_cons]
        exact hkeys

lemma set_getElem?_self {α : Type} (c : List α) (j : Nat) (x : α)
    (hx : (c)[j]? = some x) : c.set j x = c := by
  apply List.ext_getElem?
  intro i
  by_cases hij : i = j
  · subst hij
    rw [List.getElem?_set_self (List.getElem?_eq_some.1 hx).1, hx]
  · rw [List.getElem?_set_ne (fun h => hij h.symm)]

lemma node_eta_rc1 (n : Node) (h : n.refcount = 1) :
    { n with refcount := 1 } = n := by
  cases n with
  | mk key value refcount nh =>
    simp only at h
    rw [h]

lemma pinAt_of_getElem (t : HashTable) (b j : Nat) (n : Node)
    (hn : (bucketOf t b)[j]? = some n) :
    pinAt t b j = { t with buckets := t.buckets.set b ((bucketOf t b).set j { n with refcount := (n.refcount + 1) % U32 }) } := by
  unfold pinAt
  simp [hn]

lemma buckets_getElem?_self (t : HashTable) (b : Nat) (hb : b < t.buckets.length) :
    (t.buckets)[b]? = some (bucketOf t b) := by
  rw [bucketOf_eq_getElem t b hb]
  exact List.getElem?_eq_getElem hb

lemma deref_after_pin (t : HashTable) (b j b' j' : Nat) (n n' : Node)
    (hb : b < t.buckets.length) (hb' : b' < t.buckets.length)
    (hn : (bucketOf t b)[j]? = some n) (hn' : (bucketOf t b')[j']? = some n')
    (hne : ¬ (b' = b ∧ j' = j))
    (hrc : n.refcount = 1) :
    derefAt (pinAt { t with buckets := t.buckets.set b ((bucketOf t b).set j { n with refcount := 2 }) } b' j') b j =
      { table := { t with buckets := t.buckets.set b' ((bucketOf t b').set j' { n' with refcount := (n'.refcount + 1) % U32 }) }, events := [], destroyed := false } := by
  have hjlt : j < (bucketOf t b).length := (List.getElem?_eq_some.1 hn).1
  have hdref : hashtable_node_deref t.notifier_head { n with refcount := 2 } =
      (some n, []) := by
    rw [hashtable_node_deref_ge2 t.notifier_head { n with refcount := 2 } (by simp)]
    show (some { n with refcount := 2 - 1 }, ([] : List Invocation)) = _
    rw [node_eta_rc1 n hrc]
  by_cases hbb : b' = b
  · subst hbb
    have hjj : j' ≠ j := fun h => hne ⟨rfl, h⟩
    have hc1 : bucketOf { t with buckets := t.buckets.set b' ((bucketOf t b').set j { n with refcount := 2 }) } b' = (bucketOf t b').set j { n with refcount := 2 } := by
      show (t.buckets.set b' ((bucketOf t b').set j { n with refcount := 2 })).getD b' [] = _
      exact getD_set_self _ _ _ _ hb'
    have hn'2 : (bucketOf { t with buckets := t.buckets.set b' ((bucketOf t b').set j { n with refcount := 2 }) } b')[j']? = some n' := by
      rw [hc1, List.getElem?_set_ne (fun h => hjj h.symm)]
      exact hn'
    have hpin : pinAt { t with buckets := t.buckets.set b' ((bucketOf t b').set j { n with refcount := 2 }) } b' j' = { t with buckets := (t.buckets.set b' ((bucketOf t b').set j { n with refcount := 2 })).set b' (((bucketOf t b').set j { n with refcount := 2 }).set j' { n' with refcount := (n'.refcount + 1) % U32 }) } := by
      rw [pinAt_of_getElem _ b' j' n' hn'2, hc1]
    rw [hpin]
    have hc2 : bucketOf { t with buckets := (t.buckets.set b' ((bucketOf t b').set j { n with refcount := 2 })).set b' (((bucketOf t b').set j { n with refcount := 2 }).set j' { n' with refcount := (n'.refcount + 1) % U32 }) } b' = ((bucketOf t b').set j { n with refcount := 2 }).set j' { n' with refcount := (n'.refcount + 1) % U32 } := by
      show ((t.buckets.set b' ((bucketOf t b').set j { n with refcount := 2 })).set b' (((bucketOf t b').set j { n with refcount := 2 }).set j' { n' with refcount := (n'.refcount + 1) % U32 })).getD b' [] = _
      rw [List.set_set]
      exact getD_set_self _ _ _ _ hb'
    have hnb2 : (bucketOf { t with buckets := (t.buckets.set b' ((bucketOf t b').set j { n with refcount := 2 })).set b' (((bucketOf t b').set j { n with refcount := 2 }).set j' { n' with refcount := (n'.refcount + 1) % U32 }) } b')[j]? = some { n with refcount := 2 } := by
      rw [hc2, List.getElem?_set_ne hjj, List.getElem?_set_self hjlt]
    rw [derefAt_of_deref_some _ b' j { n with refcount := 2 } n hnb2 hdref]
    refine congrArg (fun bs => ({ table := { t with buckets := bs }, events := [], destroyed := false } : DerefResult)) ?_
    rw [hc2]
    show ((t.buckets.set b' ((bucketOf t b').set j { n with refcount := 2 })).set b' (((bucketOf t b').set j { n with refcount := 2 }).set j' { n' with refcount := (n'.refcount + 1) % U32 })).set b' ((((bucketOf t b').set j { n with refcount := 2 }).set j' { n' with refcount := (n'.refcount + 1) % U32 }).set j n) = t.buckets.set b' ((bucketOf t b').set j' { n' with refcount := (n'.refcount + 1) % U32 })
    rw [List.set_set, List.set_set]
    rw [List.set_comm _ _ _ hjj, List.set_set, set_getElem?_self _ _ _ hn]
  · have hc1 : bucketOf { t with buckets := t.buckets.set b ((bucketOf t b).set j { n with refcount := 2 }) } b' = bucketOf t b' := by
      show (t.buckets.set b ((bucketOf t b).set j { n with refcount := 2 })).getD b' [] = _
      exact getD_set_ne _ _ _ _ _ (fun h => hbb h.symm)
    have hn'2 : (bucketOf { t with buckets := t.buckets.set b ((bucketOf t b).set j { n with refcount := 2 }) } b')[j']? = some n' := by
      rw [hc1]
      exact hn'
    have hpin : pinAt { t with buckets := t.buckets.set b ((bucketOf t b).set j { n with refcount := 2 }) } b' j' = { t with buckets := (t.buckets.set b ((bucketOf t b).set j { n with refcount := 2 })).set b' ((bucketOf t b').set j' { n' with refcount := (n'.refcount + 1) % U32 }) } := by
      rw [pinAt_of_getElem _ b' j' n' hn'2, hc1]
    rw [hpin]
    have hc2 : bucketOf { t with buckets := (t.buckets.set b ((bucketOf t b).set j { n with refcount := 2 })).set b' ((bucketOf t b').set j' { n' with refcount := (n'.refcount + 1) % U32 }) } b = (bucketOf t b).set j { n with refcount := 2 } := by
      show ((t.buckets.set b ((bucketOf t b).set j { n with refcount := 2 })).set b' ((bucketOf t b').set j' { n' with refcount := (n'.refcount + 1) % U32 })).getD b [] = _
      rw [getD_set_ne _ _ _ _ _ hbb]
      exact getD_set_self _ _ _ _ hb
    have hnb2 : (bucketOf { t with buckets := (t.buckets.set b ((bucketOf t b).set j { n with refcount := 2 })).set b' ((bucketOf t b').set j' { n' with refcount := (n'.refcount + 1) % U32 }) } b)[j]? = some { n with refcount := 2 } := by
      rw [hc2, List.getElem?_set_self hjlt]
    rw [derefAt_of_deref_some _ b j { n with refcount := 2 } n hnb2 hdref]
    refine congrArg (fun bs => ({ table := { t with buckets := bs }, events := [], destroyed := false } : DerefResult)) ?_
    rw [hc2]
    show ((t.buckets.set b ((bucketOf t b).set j { n with refcount := 2 })).set b' ((bucketOf t b').set j' { n' with refcount := (n'.refcount + 1) % U32 })).set b (((bucketOf t b).set j { n with refcount := 2 }).set j n) = t.buckets.set b' ((bucketOf t b').set j' { n' with refcount := (n'.refcount + 1) % U32 })
    rw [List.set_set, set_getElem?_self _ _ _ hn]
    rw [List.set_comm _ _ _ hbb, List.set_set, set_getElem?_self _ _ _ (buckets_getElem?_self t b hb)]

lemma iterRun_pinned : ∀ (fuel : Nat) (t : HashTable) (b j : Nat) (n : Node),
    quiescent t →
    b < t.buckets.length →
    (bucketOf t b)[j]? = some n →
    (keysFromAux (t.buckets.drop b) (j + 1)).length < fuel →
    iterRun fuel { t with buckets := t.buckets.set b ((bucketOf t b).set j { n with refcount := 2 }) } ⟨some j, b⟩ = keysFromAux (t.buckets.drop b) (j + 1) := by
  intro fuel
  induction fuel with
  | zero => intro t b j n _ _ _ hfuel; omega
  | succ fuel ih =>
    intro t b j n hq hb hn hfuel
    have hjlt : j < (bucketOf t b).length := (List.getElem?_eq_some.1 hn).1
    have hrc : n.refcount = 1 := hq (bucketOf t b) (bucketOf_mem t b hb) n
      ((List.getElem?_eq_some.1 hn).2 ▸ List.getElem_mem hjlt)
    have hpos : ∀ c ∈ t.buckets.drop b, ∀ nn ∈ c, 0 < nn.refcount :=
      fun c hc nn hnn => by rw [hq c (List.mem_of_mem_drop hc) nn hnn]; omega
    have hscaneq : scanFrom (({ t with buckets := t.buckets.set b ((bucketOf t b).set j { n with refcount := 2 }) } : HashTable).buckets.drop b) b (j + 1) = scanFrom (t.buckets.drop b) b (j + 1) := by
      show scanFrom ((t.buckets.set b ((bucketOf t b).set j { n with refcount := 2 })).drop b) b (j + 1) = _
      rw [drop_set_cons _ _ _ hb, scanFrom_set_lt _ _ _ _ _ _ (Nat.lt_succ_self j),
        bucketOf_eq_getElem t b hb, ← List.drop_eq_getElem_cons hb]
    cases hs : scanFrom (t.buckets.drop b) b (j + 1) with
    | none =>
      rw [scanFrom_none_keys _ _ _ hpos hs]
      have hdref : hashtable_node_deref t.notifier_head { n with refcount := 2 } =
          (some n, []) := by
        rw [hashtable_node_deref_ge2 t.notifier_head { n with refcount := 2 } (by simp)]
        show (some { n with refcount := 2 - 1 }, ([] : List Invocation)) = _
        rw [node_eta_rc1 n hrc]
      have hc1 : bucketOf { t with buckets := t.buckets.set b ((bucketOf t b).set j { n with refcount := 2 }) } b = (bucketOf t b).set j { n with refcount := 2 } := by
        show (t.buckets.set b ((bucketOf t b).set j { n with refcount := 2 })).getD b [] = _
        exact getD_set_self _ _ _ _ hb
      have hnb : (bucketOf { t with buckets := t.buckets.set b ((bucketOf t b).set j { n with refcount := 2 }) } b)[j]? = some { n with refcount := 2 } := by
        rw [hc1, List.getElem?_set_self hjlt]
      have hr := hashtable_iter_next_of_scan_none _ b j (hscaneq.trans hs)
      rw [derefAt_of_deref_some _ b j { n with refcount := 2 } n hnb hdref] at hr
      simp [iterRun, hr]
    | some bjn =>
      obtain ⟨b', j', n'⟩ := bjn
      obtain ⟨hble, hltlen, hget, himp, hkeys⟩ := scanFrom_some_spec _ _ _ _ _ _ hpos hs
      rw [List.length_drop] at hltlen
      have hb' : b' < t.buckets.length := by omega
      have hchain' : (bucketOf t b')[j']? = some n' := by
        rw [List.getElem?_drop] at hget
        have hbeq : b + (b' - b) = b' := by omega
        rw [hbeq] at hget
        have hgd : (t.buckets[b']?).getD [] = bucketOf t b' := by
          rw [bucketOf, List.getD_eq_getElem?_getD]
        rwa [hgd] at hget
      have hj'lt : j' < (bucketOf t b').length := (List.getElem?_eq_some.1 hchain').1
      have hrc' : n'.refcount = 1 := hq (bucketOf t b') (bucketOf_mem t b' hb') n'
        ((List.getElem?_eq_some.1 hchain').2 ▸ List.getElem_mem hj'lt)
      have hnedis : ¬ (b' = b ∧ j' = j) := by
        rintro ⟨h1, h2⟩
        have := himp h1
        omega
      have hdrop' : (t.buckets.drop b).drop (b' - b) = t.buckets.drop b' := by
        rw [List.drop_drop]
        congr 1
        omega
      rw [hdrop'] at hkeys
      have hderef := deref_after_pin t b j b' j' n n' hb hb' hn hchain' hnedis hrc
      have hr := hashtable_iter_next_of_scan_some _ b j b' j' n' (hscaneq.trans hs)
      rw [hderef] at hr
      simp only [] at hr
      have hrcsucc : (n'.refcount + 1) % U32 = 2 := by
        rw [hrc']
        norm_num [U32]
      rw [hrcsucc] at hr
      have hlen : (keysFromAux (t.buckets.drop b') (j' + 1)).length < fuel := by
        have := congrArg List.length hkeys
        simp at this
        omega
      have hih := ih t b' j' n' hq hb' hchain' hlen
      rw [hkeys]
      simp only [iterRun, hr]
      rw [if_neg (by simp : ¬(false = true ∧ b' = b))]
      rw [hih]

lemma hashtable_iter_next_fresh_none (t : HashTable)
    (hscan : scanFrom t.buckets 0 0 = none) :
    hashtable_iter_next t ⟨none, 0⟩ = { table := t, iter := ⟨none, 0⟩, events := [], result := none } := by
  unfold hashtable_iter_next
  simp [iterStart, hscan]

lemma hashtable_iter_next_fresh_some (t : HashTable) (b2 j : Nat) (n' : Node)
    (hscan : scanFrom t.buckets 0 0 = some (b2, j, n')) :
    hashtable_iter_next t ⟨none, 0⟩ = { table := pinAt t b2 j, iter := ⟨some j, b2⟩, events := [], result := some (n'.key, n'.value) } := by
  unfold hashtable_iter_next
  simp [iterStart, hscan]

lemma get_ne_none_iff_mem_allKeys (t : HashTable) (hwf : wf t) (k : Key) :
    hashtable_get t k ≠ none ↔ k ∈ allKeys t := by
  constructor
  · intro hget
    rw [hashtable_get, hashtable_lookup_value] at hget
    obtain ⟨n, hf⟩ : ∃ n, (bucketOf t (qb_hash_string k t.order)).find? (fun n => n.key == k) = some n := by
      cases hf : (bucketOf t (qb_hash_string k t.order)).find? (fun n => n.key == k) with
      | none => rw [hf] at hget; simp at hget
      | some n => exact ⟨n, rfl⟩
    have hmem := List.mem_of_find?_eq_some hf
    have hkey : n.key = k := by simpa using List.find?_some hf
    have hlt : qb_hash_string k t.order < t.buckets.length := by
      rw [hwf.1]
      exact qb_hash_string_lt k t.order
    rw [allKeys, List.mem_flatten]
    refine ⟨(bucketOf t (qb_hash_string k t.order)).map (fun n => n.key), ?_, ?_⟩
    · exact List.mem_map_of_mem _ (bucketOf_mem t _ hlt)
    · subst hkey
      exact List.mem_map_of_mem _ hmem
  · intro hk
    rw [allKeys, List.mem_flatten] at hk
    obtain ⟨l, hl, hkl⟩ := hk
    rw [List.mem_map] at hl
    obtain ⟨c, hc, rfl⟩ := hl
    rw [List.mem_map] at hkl
    obtain ⟨n, hnc, rfl⟩ := hkl
    obtain ⟨b, hblt, hcb⟩ := List.mem_iff_getElem.1 hc
    have hchain : n ∈ bucketOf t b := by
      rw [bucketOf_eq_getElem t b hblt, hcb]
      exact hnc
    have hhash := hwf.2.1 b hblt n hchain
    rw [hashtable_get, hashtable_lookup_value, hhash]
    intro hnone
    have hfn : (bucketOf t b).find? (fun m => m.key == n.key) = none := by
      cases hfind : (bucketOf t b).find? (fun m => m.key == n.key) with
      | none => rfl
      | some m => rw [hfind] at hnone; simp at hnone
    rw [List.find?_eq_none] at hfn
    exact hfn n hchain (by simp)

/-- C5: on a quiescent well-formed table, a fresh iterator driven by
repeated iter_next calls until it returns null visits every present key
exactly once: the collected list equals allKeys (the keys linked in the
table, in bucket-then-chain order), it has no repeated key, and a key is
collected exactly when get finds it. -/
theorem C5_full_iteration (t : HashTable) (fuel : Nat)
    (hwf : wf t) (hq : quiescent t) (hfuel : (allKeys t).length < fuel) :
    iterRun fuel t (hashtable_iter_create t none) = allKeys t ∧
    (iterRun fuel t (hashtable_iter_create t none)).Nodup ∧
    (∀ k, k ∈ iterRun fuel t (hashtable_iter_create t none) ↔ hashtable_get t k ≠ none) := by
  have hmain : iterRun fuel t (hashtable_iter_create t none) = allKeys t := by
    show iterRun fuel t ⟨none, 0⟩ = allKeys t
    cases fuel with
    | zero => omega
    | succ fuel =>
      have hpos0 : ∀ c ∈ t.buckets, ∀ nn ∈ c, 0 < nn.refcount :=
        fun c hc nn hnn => by rw [hq c hc nn hnn]; omega
      cases hs : scanFrom t.buckets 0 0 with
      | none =>
        have hr := hashtable_iter_next_fresh_none t hs
        have hkeys : keysFromAux t.buckets 0 = [] := scanFrom_none_keys _ _ _ hpos0 hs
        rw [allKeys_eq_keysFromAux, hkeys]
        simp [iterRun, hr]
      | some bjn =>
        obtain ⟨b', j', n'⟩ := bjn
        obtain ⟨hble, hltlen, hget, himp, hkeys⟩ := scanFrom_some_spec _ _ _ _ _ _ hpos0 hs
        have hb' : b' < t.buckets.length := by simpa using hltlen
        have hchain' : (bucketOf t b')[j']? = some n' := by
          have hgd : (t.buckets[b' - 0]?).getD [] = bucketOf t b' := by
            rw [Nat.sub_zero, bucketOf, List.getD_eq_getElem?_getD]
          rwa [hgd] at hget
        have hj'lt : j' < (bucketOf t b').length := (List.getElem?_eq_some.1 hchain').1
        have hrc' : n'.refcount = 1 := hq (bucketOf t b') (bucketOf_mem t b' hb') n'
          ((List.getElem?_eq_some.1 hchain').2 ▸ List.getElem_mem hj'lt)
        have hr := hashtable_iter_next_fresh_some t b' j' n' hs
        have hpin : pinAt t b' j' = { t with buckets := t.buckets.set b' ((bucketOf t b').set j' { n' with refcount := 2 }) } := by
          rw [pinAt_of_getElem t b' j' n' hchain']
          have h2 : (n'.refcount + 1) % U32 = 2 := by rw [hrc']; norm_num [U32]
          rw [h2]
        rw [hpin] at hr
        have hkeys0 : allKeys t = n'.key :: keysFromAux (t.buckets.drop b') (j' + 1) := by
          rw [allKeys_eq_keysFromAux, hkeys]
          congr 2
        have hlen : (keysFromAux (t.buckets.drop b') (j' + 1)).length < fuel := by
          have := congrArg List.length hkeys0
          simp at this
          omega
        have hih := iterRun_pinned fuel t b' j' n' hq hb' hchain' hlen
        rw [hkeys0]
        simp only [iterRun, hr]
        rw [hih]
  refine ⟨hmain, ?_, fun k => ?_⟩
  · rw [hmain]
    exact hwf.2.2.1
  · rw [hmain]
    exact (get_ne_none_iff_mem_allKeys t hwf k).symm

theorem C5_full_iteration_witness :
    (wf exT0 ∧ quiescent exT0 ∧ (allKeys exT0).length < 2) ∧
    (iterRun 2 exT0 (hashtable_iter_create exT0 none) = allKeys exT0 ∧
     (iterRun 2 exT0 (hashtable_iter_create exT0 none)).Nodup ∧
     (∀ k, k ∈ iterRun 2 exT0 (hashtable_iter_create exT0 none) ↔ hashtable_get exT0 k ≠ none)) :=
  ⟨⟨by decide, by decide, by decide⟩,
   C5_full_iteration exT0 2 (by decide) (by decide) (by decide)⟩

end LibqbMap
